import Mathlib

set_option maxRecDepth 8000

/-! # A shallow embedding of the Gowin JTAG programming core (src/gowin.cpp)

The JTAG transport collaborator is modelled by an oracle state `Hw`: every
data-register capture returns the next value of the stream `Hw.regs`, indexed
by `Hw.idx`, and every transport call is recorded (most recent first) in the
event log `Hw.log`.  All functions below are direct transcriptions of the
methods of class `Gowin` in `src/gowin.cpp`; the hex command bytes and status
register bit masks are the `#define` constants of that file.  Bounded loops of
the C source (all loops there carry an explicit iteration counter or decrease
a remaining-length variable) are transcribed as fuel recursions whose fuel is
exactly the source's iteration bound. -/

/-- JTAG TAP states used by gowin.cpp. -/
inductive Tap where
  | testLogicReset
  | runTestIdle
  | shiftDR
  | exit2DR
  deriving DecidableEq

/-- Observable transport events, recorded most recent first in `Hw.log`.
`drW` is a write-only data-register shift, `drR` a capturing shift (the
captured `value` comes from the oracle), `drStream` a bitstream chunk shifted
from the image buffer at byte offset `byteOff` with an explicit next TAP
state.  `errTimeout`/`errFail` record the source's `printError` calls. -/
inductive Ev where
  | ir (cmd : Nat)
  | drW (bytes : List Nat) (bits : Nat)
  | drR (bits : Nat) (value : Nat)
  | drStream (byteOff : Nat) (bits : Nat) (next : Tap)
  | clk (n : Nat)
  | tapState (s : Tap)
  | flush
  | sleepUs (us : Nat)
  | clkFreq (hz : Nat)
  | errTimeout
  | errFail
  deriving DecidableEq

/-- JTAG adapter state: capture oracle, number of captures so far, configured
clock frequency (Hz), event log (most recent first). -/
structure Hw where
  regs : Nat → Nat
  idx : Nat
  freq : Nat
  log : List Ev

/-- Per-session quirk flags and boundary-scan SPI pin mapping: the data members
of class `Gowin` resolved by its constructor. -/
structure GowinS where
  is_gw1n1 : Bool
  is_gw1n4 : Bool
  is_gw2a : Bool
  is_gw5a : Bool
  external_flash : Bool
  skip_checksum : Bool
  verbose : Bool
  spi_sck : Nat
  spi_cs : Nat
  spi_di : Nat
  spi_do : Nat
  spi_msk : Nat
  deriving DecidableEq

/-- A parsed configuration image as consumed by the core: payload bytes,
bit length, the parser's computed 16-bit checksum, and the optional
`checkSum` header field (as a list of ASCII codes; `none` when the lookup
throws/is absent). -/
structure Image where
  data : Nat → Nat
  lengthBits : Nat
  checksum : Nat
  hdrCheckSum : Option (List Nat)

/-- `Gowin::send_command(cmd)`: shift `cmd` into the instruction register and
toggle the clock 5 times. -/
def send_command (cmd : Nat) (st : Hw) : Hw :=
  { st with log := Ev.clk 5 :: Ev.ir cmd :: st.log }

/-- `Gowin::readReg32(cmd)`: send the command, then shift 32 bits of ones
through the data register capturing a 32-bit little-endian response (the
oracle supplies the host-order value). -/
def readReg32 (cmd : Nat) (st : Hw) : Nat × Hw :=
  let st1 := send_command cmd st
  (st1.regs st1.idx,
    { st1 with idx := st1.idx + 1, log := Ev.drR 32 (st1.regs st1.idx) :: st1.log })

/-- `Gowin::readStatusReg()` — `readReg32(STATUS_REGISTER)` (0x41). -/
def readStatusReg (st : Hw) : Nat × Hw := readReg32 0x41 st

/-- `Gowin::readUserCode()` — `readReg32(READ_USERCODE)` (0x13). -/
def readUserCode (st : Hw) : Nat × Hw := readReg32 0x13 st

/-- The loop of `Gowin::pollFlag`: read the status register each iteration;
on the iteration where the counter has reached 100000000 report a timeout and
give up; otherwise exit successfully as soon as `(status & mask) == value`.
Fuel `100000001 - t` stands for the counter value `t` of the source. -/
def pollFuel (mask value : Nat) : Nat → Hw → Bool × Hw
  | 0, st => (false, st)
  | fuel + 1, st =>
    let p := readStatusReg st
    if fuel = 0 then (false, { p.2 with log := Ev.errTimeout :: p.2.log })
    else if p.1 &&& mask = value then (true, p.2)
    else pollFuel mask value fuel p.2

/-- `Gowin::pollFlag(mask, value)`: bounded status polling, counter capped at
100000000. -/
def pollFlag (mask value : Nat) (st : Hw) : Bool × Hw :=
  pollFuel mask value 100000001 st

/-- `Gowin::enableCfg()`: `CONFIG_ENABLE` then poll for the system-edit-mode
bit (1 << 7). -/
def enableCfg (st : Hw) : Bool × Hw :=
  pollFlag 0x80 0x80 (send_command 0x15 st)

/-- `Gowin::disableCfg()`: `CONFIG_DISABLE`, `NOOP`, then poll for the
system-edit-mode bit to clear. -/
def disableCfg (st : Hw) : Bool × Hw :=
  pollFlag 0x80 0 (send_command 0x02 (send_command 0x3A st))

/-- `Gowin::sendClkUs(us)`: toggle the clock `freq * us / 1000000` times. -/
def sendClkUs (us : Nat) (st : Hw) : Hw :=
  { st with log := Ev.clk (st.freq * us / 1000000) :: st.log }

/-- Shorthand for the source's `printError("FAIL")` reports. -/
def errFailEv (st : Hw) : Hw :=
  { st with log := Ev.errFail :: st.log }

/-- The state after one status read, as consumed by the `pollFuel` recursion. -/
def afterRead (st : Hw) : Hw :=
  Hw.mk st.regs (st.idx + 1) st.freq
    (Ev.drR 32 (st.regs st.idx) :: Ev.clk 5 :: Ev.ir 0x41 :: st.log)

/-! ## SRAM erase and FLASH erase (`Gowin::eraseSRAM`, `Gowin::eraseFLASH`) -/

/-- `Gowin::eraseSRAM()`: enable configuration, `ERASE_SRAM` + `NOOP`, poll
for the memory-erase flag (1 << 5), `XFER_DONE` + `NOOP`, disable
configuration, then fail when done-final (1 << 13) is still set. -/
def eraseSRAM (g : GowinS) (st : Hw) : Bool × Hw :=
  let st := if g.verbose then (readStatusReg st).2 else st
  let p1 := enableCfg st
  if p1.1 = false then (false, errFailEv p1.2)
  else
    let st := send_command 0x02 (send_command 0x05 p1.2)
    let p2 := pollFlag 0x20 0x20 st
    if p2.1 = false then (false, errFailEv p2.2)
    else
      let st := if g.verbose then (readStatusReg p2.2).2 else p2.2
      let st := send_command 0x02 (send_command 0x09 st)
      let p3 := disableCfg st
      if p3.1 = false then (false, errFailEv p3.2)
      else
        let st := if g.verbose then (readStatusReg p3.2).2 else p3.2
        let p4 := readStatusReg st
        if p4.1 &&& 0x2000 ≠ 0 then (false, errFailEv p4.2) else (true, p4.2)

/-- The raw TAP-state erase pulse of `Gowin::eraseFLASH`: `nb_iter` rounds of
SHIFT_DR / 32 clock toggles / RUN_TEST_IDLE (explicitly not a data-register
shift). -/
def iterCycles : Nat → Hw → Hw
  | 0, st => st
  | n + 1, st =>
    iterCycles n
      { st with log := Ev.tapState Tap.runTestIdle :: Ev.clk 32 ::
          Ev.tapState Tap.shiftDR :: st.log }

/-- The middle of one `Gowin::eraseFLASH` attempt (after `enableCfg`):
`EFLASH_ERASE`, RUN_TEST_IDLE, the raw TAP erase pulse (65 rounds on GW1N1,
1 otherwise), and the ~150 ms settle delay. -/
def eraseAttempt (g : GowinS) (st : Hw) : Hw :=
  let st := send_command 0x75 st
  let st := { st with log := Ev.tapState Tap.runTestIdle :: st.log }
  let st := iterCycles (if g.is_gw1n1 then 65 else 1) st
  sendClkUs 150000 st

/-- The retry loop of `Gowin::eraseFLASH` (up to 100 attempts).  The Bool
result is `false` when the loop returned failure early (enable/disable
failed) and `true` when control falls through to the final status read. -/
def eraseLoop (g : GowinS) : Nat → Hw → Bool × Hw
  | 0, st => (true, st)
  | fuel + 1, st =>
    let st := if g.verbose then (readStatusReg st).2 else st
    let p1 := enableCfg st
    if p1.1 = false then (false, errFailEv p1.2)
    else
      let p2 := disableCfg (eraseAttempt g p1.2)
      if p2.1 = false then (false, errFailEv p2.2)
      else
        let p3 := readStatusReg
          { p2.2 with log := Ev.sleepUs 500000 :: Ev.flush :: p2.2.log }
        if p3.1 &&& 0x2000 = 0 then (true, p3.2)
        else eraseLoop g fuel p3.2

/-- `Gowin::eraseFLASH()`: erase SRAM first when Gowin-VLD (1 << 12) is set,
run the retry loop, then report failure iff a final status read still shows
done-final (1 << 13). -/
def eraseFLASH (g : GowinS) (st : Hw) : Bool × Hw :=
  let p0 := readStatusReg st
  let q := if p0.1 &&& 0x1000 ≠ 0 then eraseSRAM g p0.2 else (true, p0.2)
  if q.1 = false then (false, q.2)
  else
    let p1 := eraseLoop g 100 q.2
    if p1.1 = false then (false, p1.2)
    else
      let p2 := readStatusReg p1.2
      if p2.1 &&& 0x2000 ≠ 0 then (false, errFailEv p2.2) else (true, p2.2)

/-- Specification-side count of erase attempts: scan the end-of-attempt
done-final outcomes `done k` from attempt `k`, stopping at the first cleared
one, capped by the remaining fuel. -/
def attemptsFrom (done : Nat → Bool) : Nat → Nat → Nat
  | 0, _ => 0
  | fuel + 1, k => if done k then 1 else 1 + attemptsFrom done fuel (k + 1)

/-! ## FLASH page programming (`Gowin::writeFLASH`) -/

/-- The source's inline `bswap_32`. -/
def bswap_32 (x : Nat) : Nat :=
  ((x <<< 24) &&& 0xff000000) ||| ((x <<< 8) &&& 0x00ff0000) |||
    ((x >>> 8) &&& 0x0000ff00) ||| ((x >>> 24) &&& 0x000000ff)

/-- The four bytes of a 32-bit word in little-endian memory order, as passed
to `shiftDR` after `htole32`. -/
def le32bytes (w : Nat) : List Nat :=
  [w % 256, w / 256 % 256, w / 65536 % 256, w / 16777216 % 256]

/-- The 32-bit page address of `Gowin::writeFLASH`: `addr = off / 4 + page`
(`off` is the byte offset of the page inside the image, `unsigned` width). -/
def flashAddr (page off : Nat) : Nat := (off / 4 + page) % 4294967296

/-- The 256-byte page buffer `xpage` of one `Gowin::writeFLASH` iteration:
the next `min 256 (lenB - off)` image bytes, a short final page padded with
0xFF, and the first four bytes of the page at absolute address 0 replaced by
the autoboot pattern 'G' 'W' '1' 'N'. -/
def xpage (page : Nat) (data : Nat → Nat) (lenB off : Nat) : List Nat :=
  let l := min 256 (lenB - off)
  let base := (List.range 256).map (fun i => if i < l then data (off + i) else 0xff)
  if flashAddr page off = 0 then [0x47, 0x57, 0x31, 0x4e] ++ base.drop 4 else base

/-- The 64-words-of-4-bytes inner loop of `Gowin::writeFLASH`: each word is
assembled little-endian from `xpage`, byte-swapped, shifted into the data
register, and followed by a settle delay (32 us on GW1N1, else 16 us). -/
def pageWordsGo (g : GowinS) (xp : List Nat) (y : Nat) : Nat → Hw → Hw
  | 0, st => st
  | n + 1, st =>
    let w := xp.getD (4 * y) 0 + 256 * xp.getD (4 * y + 1) 0 +
      65536 * xp.getD (4 * y + 2) 0 + 16777216 * xp.getD (4 * y + 3) 0
    let st := { st with log := Ev.drW (le32bytes (bswap_32 w)) 32 :: st.log }
    let st := sendClkUs (if g.is_gw1n1 then 32 else 16) st
    pageWordsGo g xp (y + 1) n st

/-- One iteration of the `Gowin::writeFLASH` page loop: optional settle
delay (or autoboot pattern, already folded into `xpage`), `CONFIG_ENABLE`,
`NOOP`, `EF_PROGRAM`, the 32-bit little-endian page address, a settle delay,
the 64 byte-swapped words of the page, and a trailing settle delay. -/
def pageStep (g : GowinS) (page : Nat) (data : Nat → Nat) (lenB off : Nat)
    (st : Hw) : Hw :=
  let xp := xpage page data lenB off
  let addr := flashAddr page off
  let st := if addr ≠ 0 then sendClkUs 16 st else st
  let st := send_command 0x15 st
  let st := send_command 0x02 st
  let st := send_command 0x71 st
  let st := { st with log := Ev.drW (le32bytes addr) 32 :: st.log }
  let st := sendClkUs 16 st
  let st := pageWordsGo g xp 0 64 st
  sendClkUs (if g.is_gw1n1 then 2400 else 6) st

/-- The page loop of `Gowin::writeFLASH` over byte offsets 0, 256, 512, …
below `lenB`; fuel `lenB` dominates the iteration count. -/
def flashPagesGo (g : GowinS) (page : Nat) (data : Nat → Nat) (lenB : Nat) :
    Nat → Nat → Hw → Hw
  | 0, _, st => st
  | fuel + 1, off, st =>
    if off < lenB then
      flashPagesGo g page data lenB fuel (off + 256) (pageStep g page data lenB off st)
    else st

/-- `Gowin::writeFLASH(page, data, length)`: program the image in 256-byte
pages, then disable configuration, `RELOAD` + `NOOP`, flush and wait, and
succeed iff the final status read shows done-final. -/
def writeFLASH (g : GowinS) (page : Nat) (data : Nat → Nat) (lengthBits : Nat)
    (st : Hw) : Bool × Hw :=
  let st := if g.verbose then (readStatusReg st).2 else st
  let lenB := lengthBits / 8
  let st := flashPagesGo g page data lenB lenB 0 st
  let p1 := disableCfg st
  if p1.1 = false then (false, errFailEv p1.2)
  else
    let st := if g.verbose then (readStatusReg p1.2).2 else p1.2
    let st := send_command 0x02 (send_command 0x3C st)
    let st := if g.verbose then (readStatusReg st).2 else st
    let st := { st with log := Ev.sleepUs 500000 :: Ev.flush :: st.log }
    let st := if g.verbose then (readStatusReg st).2 else st
    let p2 := readStatusReg st
    if p2.1 &&& 0x2000 ≠ 0 then (true, p2.2) else (false, p2.2)

/-- The per-page addresses sent by `Gowin::writeFLASH`, in page order
(`addr = off / 4 + page` at byte offsets 0, 256, 512, … below `lenB`). -/
def flashAddrsGo (page lenB : Nat) : Nat → Nat → List Nat
  | 0, _ => []
  | fuel + 1, off =>
    if off < lenB then flashAddr page off :: flashAddrsGo page lenB fuel (off + 256)
    else []

/-- All page addresses of a `writeFLASH` call over a `lenB`-byte image. -/
def flashAddrs (page lenB : Nat) : List Nat := flashAddrsGo page lenB lenB 0

/-! ## SRAM programming (`Gowin::writeSRAM`) -/

/-- The chunking loop of `Gowin::writeSRAM`: shift the bitstream in steps of
`pstep = 524288` bits; a chunk that leaves data behind keeps the TAP in
SHIFT_DR, a final chunk smaller than `pstep` moves to RUN_TEST_IDLE. -/
def sramLoop : Nat → Nat → Nat → Hw → Hw
  | 0, _, _, st => st
  | fuel + 1, off, remains, st =>
    if remains = 0 then st
    else if remains < 524288 then
      { st with log := Ev.drStream off remains Tap.runTestIdle :: st.log }
    else
      sramLoop fuel (off + 65536) (remains - 524288)
        { st with log := Ev.drStream off 524288 Tap.shiftDR :: st.log }

/-- The chunk sequence (byte offset, bit count, next TAP state) produced by
the `writeSRAM` loop, in chronological order. -/
def sramChunksGo : Nat → Nat → Nat → List (Nat × Nat × Tap)
  | 0, _, _ => []
  | fuel + 1, off, remains =>
    if remains = 0 then []
    else if remains < 524288 then [(off, remains, Tap.runTestIdle)]
    else (off, 524288, Tap.shiftDR) :: sramChunksGo fuel (off + 65536) (remains - 524288)

/-- Chunk sequence of a `writeSRAM` call over an image of `L` bits. -/
def sramChunks (L : Nat) : List (Nat × Nat × Tap) := sramChunksGo L 0 L

/-- The `drStream` events of a log, most recent first. -/
def streamEvs : List Ev → List (Nat × Nat × Tap)
  | [] => []
  | Ev.drStream o b n :: rest => (o, b, n) :: streamEvs rest
  | _ :: rest => streamEvs rest

/-- `Gowin::writeSRAM(data, length)`: `CONFIG_ENABLE`, `INIT_ADDR`,
`XFER_WRITE`, the chunked bitstream, command 0x0a, the 32-bit checksum
little-endian, command 0x08, `CONFIG_DISABLE` + `NOOP`; success iff the
status register then shows done-final. -/
def writeSRAM (g : GowinS) (lengthBits cks : Nat) (st : Hw) : Bool × Hw :=
  let st := if g.verbose then (readStatusReg st).2 else st
  let st := send_command 0x15 st
  let st := send_command 0x12 st
  let st := send_command 0x17 st
  let st := sramLoop lengthBits 0 lengthBits st
  let st := send_command 0x0a st
  let st := { st with log := Ev.drW (le32bytes (cks % 4294967296)) 32 :: st.log }
  let st := send_command 0x08 st
  let st := send_command 0x3A st
  let st := send_command 0x02 st
  let st := if g.verbose then (readStatusReg st).2 else st
  let p := readStatusReg st
  if p.1 &&& 0x2000 ≠ 0 then (true, p.2) else (false, p.2)

/-! ## Checksum verification (`Gowin::checkCRC`) -/

/-- Value of one ASCII hex digit (as `strtol` base 16 accepts them). -/
def hexDigitVal (c : Nat) : Option Nat :=
  if 48 ≤ c ∧ c ≤ 57 then some (c - 48)
  else if 97 ≤ c ∧ c ≤ 102 then some (c - 87)
  else if 65 ≤ c ∧ c ≤ 70 then some (c - 55)
  else none

/-- Models `strtol(s, NULL, 16)` on a header value: accumulate leading hex
digits, stop at the first non-digit (header checksum values are plain hex
digit strings, so no sign/whitespace handling is needed). -/
def strtolHexGo : List Nat → Nat → Nat
  | [], acc => acc
  | c :: rest, acc =>
    match hexDigitVal c with
    | some d => strtolHexGo rest (acc * 16 + d)
    | none => acc

/-- `strtol(s, NULL, 16)` of an ASCII string. -/
def strtolHex (s : List Nat) : Nat := strtolHexGo s 0

/-- `Gowin::checkCRC()`: read the user-code register; succeed when its low 16
bits equal the image's computed checksum; otherwise fall back to comparing
the full value against the `checkSum` header field parsed as hex; otherwise
report a (non-fatal) CRC failure. -/
def checkCRC (img : Image) (st : Hw) : Bool × Hw :=
  let p := readUserCode st
  let ucode := p.1
  if 0xffff &&& ucode = img.checksum then (true, p.2)
  else
    match img.hdrCheckSum with
    | some s =>
      if s ≠ [] ∧ ucode = strtolHex s then (true, p.2)
      else (false, errFailEv p.2)
    | none => (false, errFailEv p.2)

/-! ## Session construction (`Gowin::Gowin`) -/

/-- Construction failures raised by the `Gowin` constructor. -/
inductive GErr where
  | parseFail
  | badFileFormat
  | idcodeMismatch
  | mcufwUnsupported
  deriving DecidableEq

/-- Kind of the supplied configuration file (`_file_extension`). -/
inductive FileKind where
  | noFile
  | fsFile
  | rawFile
  deriving DecidableEq

/-- The quirk flags and SPI pin mapping the constructor resolves from the
hardware idcode (lines 140-176 of gowin.cpp).  The default pin mapping is the
common BSCAN one; idcode 0x0100981b (GW1NSR-4C) selects the alternate one;
the GW2A/GW5A idcodes force external flash and skip the checksum. -/
def quirkSession (idcode : Nat) (externalFlash verbose : Bool) : GowinS :=
  let gw2a := idcode == 0x0000081b || idcode == 0x0000281b
  let gw5a := idcode == 0x0001081b || idcode == 0x0001181b || idcode == 0x0001281b
  { is_gw1n1 := idcode == 0x0900281B
    is_gw1n4 := idcode == 0x0100381B || idcode == 0x100681b
    is_gw2a := gw2a
    is_gw5a := gw5a
    external_flash := externalFlash || gw2a || gw5a
    skip_checksum := gw2a || gw5a
    verbose := verbose
    spi_sck := if idcode = 0x0100981b then 128 else 2
    spi_cs := if idcode = 0x0100981b then 32 else 8
    spi_di := if idcode = 0x0100981b then 8 else 32
    spi_do := if idcode = 0x0100981b then 2 else 128
    spi_msk := if idcode = 0x0100981b then 1 else 64 }

/-- The `Gowin` constructor: parse the file (a non-`.fs` file requires the
external-flash target), check a `.fs` image's header idcode (upper 4 bits
masked off) against the hardware idcode, resolve the quirk flags, and reject
a microcontroller firmware image unless the device is GW1NSR-4C
(0x0100981b).  No JTAG command is issued: the only hardware access is the
idcode read the caller passes in. -/
def mkGowin (idcode : Nat) (fileKind : FileKind) (externalFlash : Bool)
    (parseOk : Bool) (fsIdcode : Nat) (hasMcufw : Bool) (mcufwParseOk : Bool)
    (verbose : Bool) : Except GErr GowinS :=
  let fileStep : Except GErr Unit :=
    match fileKind with
    | FileKind.noFile => Except.ok ()
    | FileKind.fsFile =>
      if parseOk = false then Except.error GErr.parseFail
      else if fsIdcode &&& 0x0fffffff ≠ idcode then Except.error GErr.idcodeMismatch
      else Except.ok ()
    | FileKind.rawFile =>
      if externalFlash = false then Except.error GErr.badFileFormat
      else if parseOk = false then Except.error GErr.parseFail
      else Except.ok ()
  match fileStep with
  | Except.error e => Except.error e
  | Except.ok _ =>
    if hasMcufw then
      if idcode ≠ 0x0100981b then Except.error GErr.mcufwUnsupported
      else if mcufwParseOk = false then Except.error GErr.parseFail
      else Except.ok (quirkSession idcode externalFlash verbose)
    else Except.ok (quirkSession idcode externalFlash verbose)

/-- Whether construction succeeded. -/
def exOk : Except GErr GowinS → Bool
  | Except.ok _ => true
  | Except.error _ => false

/-! ## Flash programming orchestration (`Gowin::programFlash`) -/

/-- `Gowin::programFlash()`: set the clock to 2.5 MHz, `CONFIG_DISABLE` and
command 0, force the TAP to TEST_LOGIC_RESET, read the status register and
abort unless Gowin-VLD (1 << 12) or POR (1 << 16) is set; then erase, write
the image at page 0, write the microcontroller firmware at page 0x380 when
present, and finally compare checksums unless the family skips them. -/
def programFlash (g : GowinS) (img : Image) (mcufw : Option Image) (st : Hw) : Hw :=
  let st := { st with freq := 2500000, log := Ev.clkFreq 2500000 :: st.log }
  let st := send_command 0x3A st
  let st := send_command 0 st
  let st := { st with log := Ev.tapState Tap.testLogicReset :: st.log }
  let p := readStatusReg st
  if p.1 &&& 0x11000 = 0 then p.2
  else
    let q1 := eraseFLASH g p.2
    if q1.1 = false then q1.2
    else
      let q2 := writeFLASH g 0 img.data img.lengthBits q1.2
      if q2.1 = false then q2.2
      else
        let q3 := match mcufw with
          | some m => writeFLASH g 0x380 m.data m.lengthBits q2.2
          | none => (true, q2.2)
        if q3.1 = false then q3.2
        else
          let st := if g.skip_checksum then q3.2 else (checkCRC img q3.2).2
          if g.verbose then (readStatusReg st).2 else st

/-! ## SPI over boundary scan (`Gowin::spi_put` bounds, `Gowin::spi_wait`) -/

/-- Models `FsParser::reverseByte` (declared in the bitstream parser, outside
this file; per the spec it reverses the bit order of a byte). -/
def reverseByte (b : Nat) : Nat :=
  (List.range 8).foldl
    (fun acc i => acc ||| (if b / 2 ^ i % 2 = 1 then 2 ^ (7 - i) else 0)) 0

/-- `Gowin::spi_gowin_write(&t, NULL, 8)`: shift one 8-bit boundary-scan
vector, then 6 clock toggles. -/
def spi_gowin_write (b : Nat) (st : Hw) : Hw :=
  { st with log := Ev.clk 6 :: Ev.drW [b] 8 :: st.log }

/-- `Gowin::spi_gowin_write(&t, &r, 8)`: the same shift with an 8-bit capture
(the oracle supplies the captured vector). -/
def spi_gowin_read (b : Nat) (st : Hw) : Nat × Hw :=
  (st.regs st.idx % 256,
    { st with idx := st.idx + 1,
              log := Ev.clk 6 :: Ev.drR 8 (st.regs st.idx % 256) ::
                Ev.drW [b] 8 :: st.log })

/-- 8-bit complement of a pin mask, as `t &= ~mask` computes on a `uint8_t`. -/
def not8 (m : Nat) : Nat := 255 ^^^ (m % 256)

/-- The command-send phase of the legacy `spi_wait` path: 8 bits MSB first,
each driven with clock low then clock high, followed by a flush. -/
def spiWaitCmdBits (g : GowinS) (cmd : Nat) : Nat → Hw → Hw
  | 0, st => st
  | n + 1, st =>
    let t0 := g.spi_msk ||| g.spi_do
    let t1 := if cmd &&& 2 ^ n ≠ 0 then t0 ||| g.spi_di else t0
    let st := spi_gowin_write t1 st
    let st := spi_gowin_write (t1 ||| g.spi_sck) st
    let st := { st with log := Ev.flush :: st.log }
    spiWaitCmdBits g cmd n st

/-- One status-byte read of the legacy `spi_wait` poll loop: 8 bits MSB
first, toggling the clock through `t` and capturing the data-out line. -/
def spiReadByte (g : GowinS) : Nat → Nat → Nat → Hw → Nat × Nat × Hw
  | 0, t, tmp, st => (t, tmp, st)
  | n + 1, t, tmp, st =>
    let t1 := t &&& not8 g.spi_sck
    let st := spi_gowin_write t1 st
    let t2 := t1 ||| g.spi_sck
    let pr := spi_gowin_read t2 st
    let st := { pr.2 with log := Ev.flush :: pr.2.log }
    let tmp1 := if pr.1 &&& g.spi_do ≠ 0 then tmp ||| 2 ^ n else tmp
    spiReadByte g n t2 tmp1 st

/-- The status byte the legacy poll loop assembles from 8 consecutive
captures starting at oracle index `i` (bit `2^n` from the `(8-1-n)`-th). -/
def legacyBits (g : GowinS) (regs : Nat → Nat) (i : Nat) : Nat → Nat
  | 0 => 0
  | n + 1 =>
    (if regs i % 256 &&& g.spi_do ≠ 0 then 2 ^ n else 0) ||| legacyBits g regs (i + 1) n

/-- The legacy `spi_wait` poll loop: read a status byte, bump the counter,
break at the timeout budget, else loop until `(tmp & mask) == cond`.
Returns (final counter, final `t`, last status byte, state). -/
def spiWaitLoopL (g : GowinS) (mask cond timeout : Nat) :
    Nat → Nat → Nat → Hw → Nat × Nat × Nat × Hw
  | 0, t, count, st => (count, t, 0, st)
  | fuel + 1, t, count, st =>
    let q := spiReadByte g 8 t 0 st
    let count1 := count + 1
    if count1 = timeout then (count1, q.1, q.2.1, q.2.2)
    else if q.2.1 &&& mask ≠ cond then spiWaitLoopL g mask cond timeout fuel q.1 count1 q.2.2
    else (count1, q.1, q.2.1, q.2.2)

/-- The GW2A (shift-register-assisted) `spi_wait` poll loop: command 0x16,
EXIT2_DR, one 24-bit shift per iteration; the response byte is rebuilt from
the reversed middle byte and one bit of the third. -/
def spiWaitLoopA (g : GowinS) (mask cond timeout : Nat) :
    Nat → Nat → Hw → Nat × Nat × Hw
  | 0, count, st => (count, 0, st)
  | fuel + 1, count, st =>
    let st := send_command 0x16 st
    let st := { st with log := Ev.tapState Tap.exit2DR :: st.log }
    let v := st.regs st.idx
    let st := { st with idx := st.idx + 1, log := Ev.drR 24 v :: st.log }
    let tmp := reverseByte ((v / 256 % 256) >>> 1) ||| (1 &&& (v / 65536 % 256))
    let count1 := count + 1
    if count1 = timeout then (count1, tmp, st)
    else if tmp &&& mask ≠ cond then spiWaitLoopA g mask cond timeout fuel count1 st
    else (count1, tmp, st)

/-- The response byte of iteration `k` of the assisted poll loop, from the
oracle value at index `i`. -/
def assistByte (v : Nat) : Nat :=
  reverseByte ((v / 256 % 256) >>> 1) ||| (1 &&& (v / 65536 % 256))

/-- `Gowin::spi_wait(cmd, mask, cond, timeout)`: poll the SPI flash status
over boundary scan (legacy bit-bang) or through the GW2A shift-register
path; return 0 on success and `-ETIME` (= -62) when the counter reached
`timeout`. -/
def spi_wait (g : GowinS) (cmd mask cond timeout : Nat) (st : Hw) : Int × Hw :=
  if g.is_gw2a then
    let q := spiWaitLoopA g mask cond timeout timeout 0 st
    if q.1 = timeout then (-62, { q.2.2 with log := Ev.errTimeout :: q.2.2.log })
    else (0, q.2.2)
  else
    let t0 := g.spi_msk ||| g.spi_do
    let st := spi_gowin_write t0 st
    let st := spiWaitCmdBits g cmd 8 st
    let q := spiWaitLoopL g mask cond timeout timeout t0 0 st
    let tf := (q.2.1 &&& not8 g.spi_sck) ||| g.spi_cs
    let st := spi_gowin_write tf q.2.2.2
    let st := { st with log := Ev.flush :: st.log }
    if q.1 = timeout then (-62, { st with log := Ev.errTimeout :: st.log })
    else (0, st)

/-- The boundary-scan vector most recently driven in a log (the last 8-bit
write-only data-register shift). -/
def lastBscanVec : List Ev → Option Nat
  | [] => none
  | e :: rest =>
    match e with
    | Ev.drW [b] 8 => some b
    | _ => lastBscanVec rest

/-- The two pin mappings the constructor can install (common, GW1NSR-4C). -/
def PinsStd (g : GowinS) : Prop :=
  (g.spi_sck = 2 ∧ g.spi_cs = 8 ∧ g.spi_di = 32 ∧ g.spi_do = 128 ∧ g.spi_msk = 64) ∨
  (g.spi_sck = 128 ∧ g.spi_cs = 32 ∧ g.spi_di = 8 ∧ g.spi_do = 2 ∧ g.spi_msk = 1)

/-! ## `Gowin::spi_put` (GW2A path) buffer accesses (gowin.cpp 743-764)

`uint8_t jtx[len], jrx[len];` are declared with the caller's `len`; when a
response is requested `len` is incremented afterwards (`if (rx) len++;`), and
the subsequent loops run to the incremented length. -/

/-- Size of the local `jtx`/`jrx` arrays (declared before `len` changes). -/
def spi_put_gw2a_bufSize (len : Nat) : Nat := len

/-- The loop length after `if (rx) len++`. -/
def spi_put_gw2a_len (len : Nat) (rxPresent : Bool) : Nat :=
  if rxPresent then len + 1 else len

/-- Indices written into `jtx` (and read from `tx`) by the bit-reversal
loop `for (i = 0; i < len; i++) jtx[i] = reverseByte(tx[i]);`. -/
def spi_put_gw2a_jtxWrites (len : Nat) (rxPresent txPresent : Bool) : List Nat :=
  if txPresent then List.range (spi_put_gw2a_len len rxPresent) else []

/-- Indices read from `jrx` by the response reconstruction loop
`for (i = 0; i < len; i++) rx[i] = reverseByte(jrx[i] >> 1) | (jrx[i+1] & 1);`. -/
def spi_put_gw2a_jrxReads (len : Nat) (rxPresent : Bool) : List Nat :=
  if rxPresent then
    (List.range (spi_put_gw2a_len len rxPresent)).flatMap (fun i => [i, i + 1])
  else []

/-! ## Concrete fixtures used by witnesses and counterexamples -/

/-- A plain non-verbose session: no quirks, common pin mapping. -/
def gFix : GowinS := ⟨false, false, false, false, false, false, false, 2, 8, 32, 128, 64⟩

/-- A GW2A session (shift-register-assisted SPI path), common pin mapping. -/
def gGw2a : GowinS := ⟨false, false, true, false, true, true, false, 2, 8, 32, 128, 64⟩

/-- An adapter state with the all-zero capture oracle. -/
def stFix : Hw := ⟨fun _ => 0, 0, 2500000, []⟩

/-! ## Log-shape helpers -/

/-- `LogExt p s1 s2`: log `s2` extends `s1` by events satisfying `p`. -/
def LogExt (p : Ev → Bool) (s1 s2 : List Ev) : Prop :=
  ∃ l, s2 = l ++ s1 ∧ ∀ e ∈ l, p e = true

/-- Events a status-register poll can append. -/
def pollEvB : Ev → Bool
  | Ev.errTimeout => true
  | Ev.clk _ => true
  | Ev.ir 0x41 => true
  | Ev.drR _ _ => true
  | _ => false

/-- Events `enableCfg`/`disableCfg` can append. -/
def cfgEvB (e : Ev) : Bool :=
  pollEvB e || e == Ev.ir 0x15 || e == Ev.ir 0x3A || e == Ev.ir 0x02

/-- Events `eraseSRAM` can append. -/
def sramEvB (e : Ev) : Bool :=
  cfgEvB e || e == Ev.ir 0x05 || e == Ev.ir 0x09 || e == Ev.errFail

/-- Clock and write-only data-register events. -/
def clkDrwB : Ev → Bool
  | Ev.clk _ => true
  | Ev.drW _ _ => true
  | _ => false

/-- Events one `writeFLASH` page iteration appends besides its `EF_PROGRAM`. -/
def pageEvB (e : Ev) : Bool :=
  clkDrwB e || e == Ev.ir 0x15 || e == Ev.ir 0x02

/-- The legacy `spi_wait` poll-loop result (counter, t, status byte, state). -/
def spiWaitLegacyQ (g : GowinS) (cmd mask cond timeout : Nat) (st : Hw) :
    Nat × Nat × Nat × Hw :=
  spiWaitLoopL g mask cond timeout timeout (g.spi_msk ||| g.spi_do) 0
    (spiWaitCmdBits g cmd 8 (spi_gowin_write (g.spi_msk ||| g.spi_do) st))

/-- The final vector the legacy `spi_wait` drives before returning:
`t &= ~_spi_sck; t |= _spi_cs`. -/
def spiWaitLegacyTf (g : GowinS) (cmd mask cond timeout : Nat) (st : Hw) : Nat :=
  ((spiWaitLegacyQ g cmd mask cond timeout st).2.1 &&& not8 g.spi_sck) ||| g.spi_cs

/-- The adapter state at the end of the legacy `spi_wait` path (final vector
driven, flushed), before the return-code branch. -/
def spiWaitLegacyEnd (g : GowinS) (cmd mask cond timeout : Nat) (st : Hw) : Hw :=
  let st3 := spi_gowin_write (spiWaitLegacyTf g cmd mask cond timeout st)
    (spiWaitLegacyQ g cmd mask cond timeout st).2.2.2
  { st3 with log := Ev.flush :: st3.log }

/-! ## Theorems -/

theorem readStatusReg_eq (st : Hw) :
    readStatusReg st =
      (st.regs st.idx,
        { st with idx := st.idx + 1,
                  log := Ev.drR 32 (st.regs st.idx) :: Ev.clk 5 :: Ev.ir 0x41 :: st.log }) := rfl

theorem pollFuel_succ (mask value : Nat) (n : Nat) (st : Hw) :
    pollFuel mask value (n + 1) st =
      if n = 0 then (false, { afterRead st with log := Ev.errTimeout :: (afterRead st).log })
      else if st.regs st.idx &&& mask = value then (true, afterRead st)
      else pollFuel mask value n (afterRead st) := rfl

theorem pollFuel_regs (mask value : Nat) :
    ∀ fuel st, ((pollFuel mask value fuel st).2.regs = st.regs) ∧
      ((pollFuel mask value fuel st).2.freq = st.freq) := by
  intro fuel
  induction fuel with
  | zero => intro st; exact ⟨rfl, rfl⟩
  | succ n ih =>
    intro st
    rw [pollFuel_succ]
    by_cases hn : n = 0
    · rw [if_pos hn]; exact ⟨rfl, rfl⟩
    · rw [if_neg hn]
      by_cases hm : st.regs st.idx &&& mask = value
      · rw [if_pos hm]; exact ⟨rfl, rfl⟩
      · rw [if_neg hm]; exact ih (afterRead st)

theorem pollFuel_idx_le (mask value : Nat) :
    ∀ fuel st, (pollFuel mask value fuel st).2.idx ≤ st.idx + fuel := by
  intro fuel
  induction fuel with
  | zero => intro st; simp [pollFuel]
  | succ n ih =>
    intro st
    rw [pollFuel_succ]
    by_cases hn : n = 0
    · rw [if_pos hn]
      show st.idx + 1 ≤ st.idx + (n + 1)
      omega
    · rw [if_neg hn]
      by_cases hm : st.regs st.idx &&& mask = value
      · rw [if_pos hm]
        show st.idx + 1 ≤ st.idx + (n + 1)
        omega
      · rw [if_neg hm]
        have h2 := ih (afterRead st)
        have h3 : (afterRead st).idx = st.idx + 1 := rfl
        omega

theorem pollFuel_true_iff (mask value : Nat) :
    ∀ fuel st, ((pollFuel mask value fuel st).1 = true ↔
      ∃ k, k + 1 < fuel ∧ st.regs (st.idx + k) &&& mask = value) := by
  intro fuel
  induction fuel with
  | zero =>
    intro st
    simp [pollFuel]
  | succ n ih =>
    intro st
    rw [pollFuel_succ]
    by_cases hn : n = 0
    · rw [if_pos hn]
      subst hn
      constructor
      · intro h; exact absurd h (by simp)
      · rintro ⟨k, hk, _⟩; omega
    · rw [if_neg hn]
      by_cases hm : st.regs st.idx &&& mask = value
      · rw [if_pos hm]
        constructor
        · intro _
          exact ⟨0, by omega, by simpa using hm⟩
        · intro _
          rfl
      · rw [if_neg hm, ih (afterRead st)]
        have hregs : ∀ k, (afterRead st).regs ((afterRead st).idx + k) =
            st.regs (st.idx + 1 + k) := fun _ => rfl
        constructor
        · rintro ⟨k, hk, hv⟩
          rw [hregs] at hv
          exact ⟨k + 1, by omega, by simpa [Nat.add_assoc, Nat.add_comm 1 k] using hv⟩
        · rintro ⟨k, hk, hv⟩
          match k, hv with
          | 0, hv => exact absurd (by simpa using hv) hm
          | k + 1, hv =>
            refine ⟨k, by omega, ?_⟩
            rw [hregs]
            simpa [Nat.add_assoc, Nat.add_comm 1 k] using hv

/-- C4: `poll_flag(mask, expected)` terminates within its fixed iteration
budget (it consumes at most 100000001 status reads); it returns success
exactly when some status read within the budget of 100000000 counted
iterations satisfies `(status & mask) == expected`, and returns the timeout
failure otherwise — it never loops indefinitely. -/
theorem pollFlag_spec (st : Hw) (mask value : Nat) :
    ((pollFlag mask value st).1 = true ↔
      ∃ k, k < 100000000 ∧ st.regs (st.idx + k) &&& mask = value)
    ∧ (pollFlag mask value st).2.idx ≤ st.idx + 100000001 := by
  constructor
  · rw [pollFlag, pollFuel_true_iff]
    constructor
    · rintro ⟨k, hk, hv⟩; exact ⟨k, by omega, hv⟩
    · rintro ⟨k, hk, hv⟩; exact ⟨k, by omega, hv⟩
  · exact pollFuel_idx_le mask value 100000001 st

/-- Closed instance of C4's theorem: with an oracle that immediately shows the
polled flag, `poll_flag` succeeds, and its read budget bound holds. -/
theorem pollFlag_spec_witness :
    (pollFlag 0x2000 0x2000 ⟨fun _ => 0x2000, 0, 2500000, []⟩).1 = true ∧
    (pollFlag 0x2000 0x2000 ⟨fun _ => 0x2000, 0, 2500000, []⟩).2.idx ≤ 0 + 100000001 := by
  refine ⟨?_, (pollFlag_spec ⟨fun _ => 0x2000, 0, 2500000, []⟩ 0x2000 0x2000).2⟩
  exact (pollFlag_spec ⟨fun _ => 0x2000, 0, 2500000, []⟩ 0x2000 0x2000).1.mpr
    ⟨0, by norm_num, by decide⟩

theorem LogExt.refl (p : Ev → Bool) (s : List Ev) : LogExt p s s :=
  ⟨[], rfl, by simp⟩

theorem LogExt.trans {p : Ev → Bool} {s1 s2 s3 : List Ev}
    (h12 : LogExt p s1 s2) (h23 : LogExt p s2 s3) : LogExt p s1 s3 := by
  obtain ⟨l1, e1, m1⟩ := h12
  obtain ⟨l2, e2, m2⟩ := h23
  refine ⟨l2 ++ l1, by rw [e2, e1, List.append_assoc], ?_⟩
  intro e he
  rcases List.mem_append.1 he with h | h
  exacts [m2 e h, m1 e h]

theorem LogExt.count_eq {p : Ev → Bool} {s1 s2 : List Ev} (h : LogExt p s1 s2)
    {e : Ev} (he : p e = false) : List.count e s2 = List.count e s1 := by
  obtain ⟨l, hl, hm⟩ := h
  have hz : List.count e l = 0 := by
    rw [List.count_eq_zero]
    intro hmem
    rw [hm e hmem] at he
    exact Bool.noConfusion he
  rw [hl, List.count_append, hz, Nat.zero_add]

theorem LogExt.mono {p q : Ev → Bool} (hpq : ∀ e, p e = true → q e = true)
    {s1 s2 : List Ev} (h : LogExt p s1 s2) : LogExt q s1 s2 := by
  obtain ⟨l, hl, hm⟩ := h
  exact ⟨l, hl, fun e he => hpq e (hm e he)⟩

theorem readStatusReg_logExt (st : Hw) :
    LogExt pollEvB st.log (readStatusReg st).2.log :=
  ⟨[Ev.drR 32 (st.regs st.idx), Ev.clk 5, Ev.ir 0x41], rfl, by
    intro e he
    simp only [List.mem_cons, List.not_mem_nil, or_false] at he
    rcases he with rfl | rfl | rfl <;> rfl⟩

theorem pollFuel_logExt (mask value : Nat) :
    ∀ fuel st, LogExt pollEvB st.log (pollFuel mask value fuel st).2.log := by
  intro fuel
  induction fuel with
  | zero => intro st; exact LogExt.refl _ _
  | succ n ih =>
    intro st
    rw [pollFuel_succ]
    by_cases hn : n = 0
    · rw [if_pos hn]
      refine ⟨[Ev.errTimeout, Ev.drR 32 (st.regs st.idx), Ev.clk 5, Ev.ir 0x41], rfl, ?_⟩
      intro e he
      simp only [List.mem_cons, List.not_mem_nil, or_false] at he
      rcases he with rfl | rfl | rfl | rfl <;> rfl
    · rw [if_neg hn]
      by_cases hm : st.regs st.idx &&& mask = value
      · rw [if_pos hm]
        exact readStatusReg_logExt st
      · rw [if_neg hm]
        exact (readStatusReg_logExt st).trans (ih (afterRead st))

theorem pollEvB_cfg : ∀ e, pollEvB e = true → cfgEvB e = true := by
  intro e he
  simp [cfgEvB, he]

theorem cfgEvB_sram : ∀ e, cfgEvB e = true → sramEvB e = true := by
  intro e he
  simp [sramEvB, he]

theorem enableCfg_logExt (st : Hw) : LogExt cfgEvB st.log (enableCfg st).2.log := by
  have h1 : LogExt cfgEvB st.log (send_command 0x15 st).log := by
    refine ⟨[Ev.clk 5, Ev.ir 0x15], rfl, ?_⟩
    intro e he
    simp only [List.mem_cons, List.not_mem_nil, or_false] at he
    rcases he with rfl | rfl <;> rfl
  exact h1.trans ((pollFuel_logExt 0x80 0x80 _ _).mono pollEvB_cfg)

theorem disableCfg_logExt (st : Hw) : LogExt cfgEvB st.log (disableCfg st).2.log := by
  have h1 : LogExt cfgEvB st.log (send_command 0x02 (send_command 0x3A st)).log := by
    refine ⟨[Ev.clk 5, Ev.ir 0x02, Ev.clk 5, Ev.ir 0x3A], rfl, ?_⟩
    intro e he
    simp only [List.mem_cons, List.not_mem_nil, or_false] at he
    rcases he with rfl | rfl | rfl | rfl <;> rfl
  exact h1.trans ((pollFuel_logExt 0x80 0 _ _).mono pollEvB_cfg)

theorem eraseSRAM_logExt (g : GowinS) (st : Hw) :
    LogExt sramEvB st.log (eraseSRAM g st).2.log := by
  unfold eraseSRAM
  have hvb : ∀ s : Hw, LogExt sramEvB s.log (if g.verbose then (readStatusReg s).2 else s).log := by
    intro s
    by_cases hv : g.verbose
    · rw [if_pos hv]
      exact (readStatusReg_logExt s).mono fun e he => cfgEvB_sram e (pollEvB_cfg e he)
    · rw [if_neg hv]
      exact LogExt.refl _ _
  have hfail : ∀ s : Hw, LogExt sramEvB s.log (errFailEv s).log := by
    intro s
    refine ⟨[Ev.errFail], rfl, ?_⟩
    intro e he
    simp only [List.mem_cons, List.not_mem_nil, or_false] at he
    rcases he with rfl
    rfl
  have hsend : ∀ (c : Nat) (s : Hw), (c = 0x05 ∨ c = 0x02 ∨ c = 0x09) →
      LogExt sramEvB s.log (send_command c s).log := by
    intro c s hc
    refine ⟨[Ev.clk 5, Ev.ir c], rfl, ?_⟩
    intro e he
    simp only [List.mem_cons, List.not_mem_nil, or_false] at he
    rcases he with rfl | rfl
    · rfl
    · rcases hc with rfl | rfl | rfl <;> rfl
  have hen : ∀ s : Hw, LogExt sramEvB s.log (enableCfg s).2.log :=
    fun s => (enableCfg_logExt s).mono cfgEvB_sram
  have hdis : ∀ s : Hw, LogExt sramEvB s.log (disableCfg s).2.log :=
    fun s => (disableCfg_logExt s).mono cfgEvB_sram
  have hpoll : ∀ (m v : Nat) (s : Hw), LogExt sramEvB s.log (pollFlag m v s).2.log :=
    fun m v s => (pollFuel_logExt m v _ s).mono fun e he => cfgEvB_sram e (pollEvB_cfg e he)
  have hread : ∀ s : Hw, LogExt sramEvB s.log (readStatusReg s).2.log :=
    fun s => (readStatusReg_logExt s).mono fun e he => cfgEvB_sram e (pollEvB_cfg e he)
  by_cases h1 : (enableCfg (if g.verbose then (readStatusReg st).2 else st)).1 = false
  · rw [if_pos h1]
    exact ((hvb st).trans (hen _)).trans (hfail _)
  · rw [if_neg h1]
    set s1 := (enableCfg (if g.verbose then (readStatusReg st).2 else st)).2 with hs1
    have base : LogExt sramEvB st.log s1.log := (hvb st).trans (hen _)
    set s2 := send_command 0x02 (send_command 0x05 s1) with hs2
    have base2 : LogExt sramEvB st.log s2.log :=
      (base.trans (hsend 0x05 _ (by simp))).trans (hsend 0x02 _ (by simp))
    by_cases h2 : (pollFlag 0x20 0x20 s2).1 = false
    · rw [if_pos h2]
      exact (base2.trans (hpoll _ _ _)).trans (hfail _)
    · rw [if_neg h2]
      set s3 := (pollFlag 0x20 0x20 s2).2 with hs3
      have base3 : LogExt sramEvB st.log s3.log := base2.trans (hpoll _ _ _)
      set s4 := if g.verbose then (readStatusReg s3).2 else s3 with hs4
      have base4 : LogExt sramEvB st.log s4.log := base3.trans (hvb _)
      set s5 := send_command 0x02 (send_command 0x09 s4) with hs5
      have base5 : LogExt sramEvB st.log s5.log :=
        (base4.trans (hsend 0x09 _ (by simp))).trans (hsend 0x02 _ (by simp))
      by_cases h3 : (disableCfg s5).1 = false
      · rw [if_pos h3]
        exact (base5.trans (hdis _)).trans (hfail _)
      · rw [if_neg h3]
        set s6 := (disableCfg s5).2 with hs6
        have base6 : LogExt sramEvB st.log s6.log := base5.trans (hdis _)
        set s7 := if g.verbose then (readStatusReg s6).2 else s6 with hs7
        have base7 : LogExt sramEvB st.log s7.log := base6.trans (hvb _)
        have base8 : LogExt sramEvB st.log (readStatusReg s7).2.log :=
          base7.trans (hread _)
        by_cases h4 : (readStatusReg s7).1 &&& 0x2000 ≠ 0
        · rw [if_pos h4]
          exact base8.trans (hfail _)
        · rw [if_neg h4]
          exact base8

/-! ## C1/C2 lemmas: writeFLASH pages and addresses -/

theorem count_cons_ne' (e x : Ev) (l : List Ev) (h : e ≠ x) :
    List.count e (x :: l) = List.count e l := by
  rw [List.count_cons]
  simp [Ne.symm h]

theorem pageWordsGo_succ (g : GowinS) (xp : List Nat) (y n : Nat) (st : Hw) :
    pageWordsGo g xp y (n + 1) st =
      pageWordsGo g xp (y + 1) n
        (sendClkUs (if g.is_gw1n1 then 32 else 16)
          { st with log := Ev.drW (le32bytes (bswap_32 (xp.getD (4 * y) 0 +
              256 * xp.getD (4 * y + 1) 0 + 65536 * xp.getD (4 * y + 2) 0 +
              16777216 * xp.getD (4 * y + 3) 0))) 32 :: st.log }) := rfl

theorem pageWordsGo_logExt (g : GowinS) (xp : List Nat) :
    ∀ n y st, LogExt pageEvB st.log (pageWordsGo g xp y n st).log := by
  intro n
  induction n with
  | zero => intro y st; exact LogExt.refl _ _
  | succ m ih =>
    intro y st
    rw [pageWordsGo_succ]
    refine LogExt.trans ?_ (ih (y + 1) _)
    refine ⟨[Ev.clk _, Ev.drW _ 32], rfl, ?_⟩
    intro e he
    simp only [List.mem_cons, List.not_mem_nil, or_false] at he
    rcases he with rfl | rfl <;> rfl

theorem pageStep_count71 (g : GowinS) (page : Nat) (data : Nat → Nat) (lenB off : Nat)
    (st : Hw) :
    List.count (Ev.ir 0x71) (pageStep g page data lenB off st).log =
      List.count (Ev.ir 0x71) st.log + 1 := by
  unfold pageStep
  rw [sendClkUs, count_cons_ne' _ _ _ (by simp)]
  rw [LogExt.count_eq (pageWordsGo_logExt g (xpage page data lenB off) 64 0 _) (by decide)]
  by_cases ha : flashAddr page off ≠ 0
  · rw [if_pos ha]
    simp [sendClkUs, send_command, List.count_cons]
  · rw [if_neg ha]
    simp [sendClkUs, send_command, List.count_cons]

theorem flashPagesGo_succ (g : GowinS) (page : Nat) (data : Nat → Nat)
    (lenB fuel off : Nat) (st : Hw) :
    flashPagesGo g page data lenB (fuel + 1) off st =
      if off < lenB then
        flashPagesGo g page data lenB fuel (off + 256) (pageStep g page data lenB off st)
      else st := rfl

theorem flashPagesGo_count71 (g : GowinS) (page : Nat) (data : Nat → Nat) (lenB : Nat) :
    ∀ fuel off st, lenB ≤ off + fuel →
      List.count (Ev.ir 0x71) (flashPagesGo g page data lenB fuel off st).log =
        List.count (Ev.ir 0x71) st.log + (lenB - off + 255) / 256 := by
  intro fuel
  induction fuel with
  | zero =>
    intro off st h
    have hz : lenB - off = 0 := by omega
    simp [flashPagesGo, hz]
  | succ n ih =>
    intro off st h
    rw [flashPagesGo_succ]
    by_cases ho : off < lenB
    · rw [if_pos ho, ih (off + 256) _ (by omega), pageStep_count71]
      omega
    · rw [if_neg ho]
      have hz : lenB - off = 0 := by omega
      rw [hz]
      norm_num

/-- C1 (and the page-count part of the spec): `writeFLASH` issues exactly
`⌈(length/8) / 256⌉` EF_PROGRAM page writes. -/
theorem writeFLASH_count71 (g : GowinS) (page : Nat) (data : Nat → Nat)
    (lengthBits : Nat) (st : Hw) :
    List.count (Ev.ir 0x71) (writeFLASH g page data lengthBits st).2.log =
      List.count (Ev.ir 0x71) st.log + (lengthBits / 8 + 255) / 256 := by
  have hpre : ∀ s : Hw,
      List.count (Ev.ir 0x71) (if g.verbose then (readStatusReg s).2 else s).log =
        List.count (Ev.ir 0x71) s.log := by
    intro s
    by_cases hv : g.verbose
    · rw [if_pos hv]
      exact (readStatusReg_logExt s).count_eq (by decide)
    · rw [if_neg hv]
  simp only [writeFLASH]
  set s1 := flashPagesGo g page data (lengthBits / 8) (lengthBits / 8) 0
    (if g.verbose then (readStatusReg st).2 else st) with hs1
  have hc1 : List.count (Ev.ir 0x71) s1.log =
      List.count (Ev.ir 0x71) st.log + (lengthBits / 8 + 255) / 256 := by
    rw [hs1, flashPagesGo_count71 g page data _ _ _ _ (by omega), hpre st]
    omega
  by_cases hd : (disableCfg s1).1 = false
  · rw [if_pos hd]
    show List.count (Ev.ir 0x71) (errFailEv (disableCfg s1).2).log = _
    rw [errFailEv, count_cons_ne' _ _ _ (by simp),
      (disableCfg_logExt s1).count_eq (by decide), hc1]
  · rw [if_neg hd]
    set s2 := if g.verbose then (readStatusReg (disableCfg s1).2).2 else (disableCfg s1).2
      with hs2
    have hc2 : List.count (Ev.ir 0x71) s2.log =
        List.count (Ev.ir 0x71) st.log + (lengthBits / 8 + 255) / 256 := by
      rw [hs2, hpre, (disableCfg_logExt s1).count_eq (by decide), hc1]
    set s3 := send_command 0x02 (send_command 0x3C s2) with hs3
    have hc3 : List.count (Ev.ir 0x71) s3.log = List.count (Ev.ir 0x71) s2.log := by
      rw [hs3]
      simp [send_command, List.count_cons]
    set s4 := if g.verbose then (readStatusReg s3).2 else s3 with hs4
    set s5 : Hw := { s4 with log := Ev.sleepUs 500000 :: Ev.flush :: s4.log } with hs5
    have hc5 : List.count (Ev.ir 0x71) s5.log = List.count (Ev.ir 0x71) s2.log := by
      rw [hs5]
      show List.count (Ev.ir 0x71) (Ev.sleepUs 500000 :: Ev.flush :: s4.log) = _
      rw [count_cons_ne' _ _ _ (by simp), count_cons_ne' _ _ _ (by simp), hs4, hpre, hc3]
    set s6 := if g.verbose then (readStatusReg s5).2 else s5 with hs6
    have hc6 : List.count (Ev.ir 0x71) (readStatusReg s6).2.log =
        List.count (Ev.ir 0x71) s2.log := by
      rw [(readStatusReg_logExt s6).count_eq (by decide), hs6, hpre, hc5]
    by_cases hf : (readStatusReg s6).1 &&& 0x2000 ≠ 0
    · rw [if_pos hf]
      show List.count (Ev.ir 0x71) (readStatusReg s6).2.log = _
      rw [hc6, hc2]
    · rw [if_neg hf]
      show List.count (Ev.ir 0x71) (readStatusReg s6).2.log = _
      rw [hc6, hc2]

theorem getD_range_map (f : Nat → Nat) (n i d : Nat) :
    ((List.range n).map f).getD i d = if i < n then f i else d := by
  by_cases h : i < n
  · rw [if_pos h]
    rw [List.getD_eq_getElem?_getD, List.getElem?_map, List.getElem?_range h]
    rfl
  · rw [if_neg h]
    rw [List.getD_eq_getElem?_getD, List.getElem?_map]
    rw [List.getElem?_eq_none (by simpa using h)]
    rfl

theorem xpage_length (page : Nat) (data : Nat → Nat) (lenB off : Nat) :
    (xpage page data lenB off).length = 256 := by
  unfold xpage
  by_cases h : flashAddr page off = 0
  · rw [if_pos h]
    simp
  · rw [if_neg h]
    simp

theorem xpage_base_pad (data : Nat → Nat) (lenB off i : Nat)
    (hi : i < 256) (hpad : lenB ≤ off + i) :
    ((List.range 256).map
        (fun j => if j < min 256 (lenB - off) then data (off + j) else 0xff)).getD i 0
      = 0xff := by
  rw [getD_range_map, if_pos hi, if_neg (by omega)]

theorem xpage_pad (page : Nat) (data : Nat → Nat) (lenB off i : Nat)
    (hi : i < 256) (hpad : lenB ≤ off + i) (ha : flashAddr page off ≠ 0) :
    (xpage page data lenB off).getD i 0 = 0xff := by
  unfold xpage
  rw [if_neg ha]
  exact xpage_base_pad data lenB off i hi hpad

theorem xpage_pad_sig (page : Nat) (data : Nat → Nat) (lenB off i : Nat)
    (hi : i < 256) (hpad : lenB ≤ off + i) (h4 : 4 ≤ i)
    (ha : flashAddr page off = 0) :
    (xpage page data lenB off).getD i 0 = 0xff := by
  unfold xpage
  rw [if_pos ha]
  have hlen : ([0x47, 0x57, 0x31, 0x4e] : List Nat).length = 4 := rfl
  rw [List.getD_eq_getElem?_getD,
    List.getElem?_append_right (by simpa using h4), List.getElem?_drop, hlen]
  have h1 : 4 + (i - 4) = i := by omega
  rw [h1, ← List.getD_eq_getElem?_getD]
  exact xpage_base_pad data lenB off i hi hpad

theorem xpage_sig (page : Nat) (data : Nat → Nat) (lenB off : Nat)
    (ha : flashAddr page off = 0) :
    (xpage page data lenB off).take 4 = [0x47, 0x57, 0x31, 0x4e] := by
  unfold xpage
  rw [if_pos ha]
  exact List.take_left' rfl

/-- C1: over an image of `length` bits, `write_flash` programs exactly
`⌈(length/8)/256⌉` 256-byte pages (one EF_PROGRAM command per page); every
page buffer is 256 bytes; the bytes of a short final page beyond the image
are 0xFF padding; and the page at absolute flash address 0 always starts
with the fixed autoboot signature 'G' 'W' '1' 'N' regardless of the image
content. -/
theorem writeFLASH_page_chunking :
    (∀ (g : GowinS) (page : Nat) (data : Nat → Nat) (lengthBits : Nat) (st : Hw),
      List.count (Ev.ir 0x71) (writeFLASH g page data lengthBits st).2.log =
        List.count (Ev.ir 0x71) st.log + (lengthBits / 8 + 255) / 256)
    ∧ (∀ (page : Nat) (data : Nat → Nat) (lenB off : Nat),
        (xpage page data lenB off).length = 256)
    ∧ (∀ (page : Nat) (data : Nat → Nat) (lenB off i : Nat),
        i < 256 → lenB ≤ off + i → flashAddr page off ≠ 0 →
        (xpage page data lenB off).getD i 0 = 0xff)
    ∧ (∀ (page : Nat) (data : Nat → Nat) (lenB off i : Nat),
        i < 256 → lenB ≤ off + i → 4 ≤ i → flashAddr page off = 0 →
        (xpage page data lenB off).getD i 0 = 0xff)
    ∧ (∀ (page : Nat) (data : Nat → Nat) (lenB off : Nat),
        flashAddr page off = 0 →
        (xpage page data lenB off).take 4 = [0x47, 0x57, 0x31, 0x4e]) :=
  ⟨writeFLASH_count71,
    xpage_length,
    fun page data lenB off i hi hp ha => xpage_pad page data lenB off i hi hp ha,
    fun page data lenB off i hi hp h4 ha => xpage_pad_sig page data lenB off i hi hp h4 ha,
    fun page data lenB off ha => xpage_sig page data lenB off ha⟩

/-- Closed instance of C1's theorem: a 300-byte (2400-bit) image is written
in 2 pages; the final page is padded with 0xFF beyond byte 44; page 0 of an
all-0xAA image still starts with the autoboot signature. -/
theorem writeFLASH_page_chunking_witness :
    List.count (Ev.ir 0x71) (writeFLASH gFix 0 (fun _ => 0xAA) 2400 stFix).2.log =
      List.count (Ev.ir 0x71) stFix.log + 2
    ∧ (xpage 0 (fun _ => 0xAA) 300 256).length = 256
    ∧ (xpage 0 (fun _ => 0xAA) 300 256).getD 100 0 = 0xff
    ∧ (xpage 0 (fun _ => 0xAA) 2 0).getD 10 0 = 0xff
    ∧ (xpage 0 (fun _ => 0xAA) 300 0).take 4 = [0x47, 0x57, 0x31, 0x4e] := by
  refine ⟨?_, ?_, ?_, ?_, ?_⟩
  · have h := writeFLASH_page_chunking.1 gFix 0 (fun _ => 0xAA) 2400 stFix
    simpa using h
  · exact writeFLASH_page_chunking.2.1 0 (fun _ => 0xAA) 300 256
  · exact writeFLASH_page_chunking.2.2.1 0 (fun _ => 0xAA) 300 256 100
      (by norm_num) (by norm_num) (by decide)
  · exact writeFLASH_page_chunking.2.2.2.1 0 (fun _ => 0xAA) 2 0 10
      (by norm_num) (by norm_num) (by norm_num) (by decide)
  · exact writeFLASH_page_chunking.2.2.2.2 0 (fun _ => 0xAA) 300 0 (by decide)

theorem flashAddrsGo_succ (page lenB fuel off : Nat) :
    flashAddrsGo page lenB (fuel + 1) off =
      if off < lenB then flashAddr page off :: flashAddrsGo page lenB fuel (off + 256)
      else [] := rfl

theorem flashAddrsGo_spec (page lenB : Nat) :
    ∀ fuel off, lenB ≤ off + fuel →
      flashAddrsGo page lenB fuel off =
        (List.range ((lenB - off + 255) / 256)).map
          (fun n => flashAddr page (off + 256 * n)) := by
  intro fuel
  induction fuel with
  | zero =>
    intro off h
    have hz : lenB - off = 0 := by omega
    simp [flashAddrsGo, hz]
  | succ m ih =>
    intro off h
    rw [flashAddrsGo_succ]
    by_cases ho : off < lenB
    · rw [if_pos ho, ih (off + 256) (by omega)]
      have hc : (lenB - off + 255) / 256 = (lenB - (off + 256) + 255) / 256 + 1 := by
        omega
      rw [hc, List.range_succ_eq_map, List.map_cons, List.map_map, Nat.add_zero]
      congr 1
      apply List.map_congr_left
      intro n _
      show flashAddr page (off + 256 + 256 * n) = flashAddr page (off + 256 * (n + 1))
      have harith : off + 256 + 256 * n = off + 256 * (n + 1) := by omega
      rw [harith]
    · rw [if_neg ho]
      have hz : lenB - off = 0 := by omega
      simp [hz]

/-- C2 counterexample: on a 512-byte image at page offset 0, the address
shifted for the second page (page number 1) is 64, not
`offset_in_pages + page_number = 1`: the source computes `off / 4 + page`
with `off` the byte offset, so consecutive pages differ by 64. -/
theorem flashAddr_claim_cex :
    (flashAddrs 0 512).getD 1 0 = 64 ∧ (64 : Nat) ≠ (0 + 1) % 4294967296 := by
  constructor
  · rfl
  · decide

/-- C2 amended: the 32-bit address shifted before the payload of page `n`
(zero-based) equals `page + 64 * n (mod 2^32)` — the supplied page offset
plus 64 per 256-byte page, not 1 per page — and `le32bytes` is the
little-endian byte encoding of that 32-bit word. -/
theorem flashAddrs_amended (page lenB : Nat) :
    (flashAddrs page lenB).length = (lenB + 255) / 256
    ∧ (∀ n, n < (lenB + 255) / 256 →
        (flashAddrs page lenB).getD n 0 = (page + 64 * n) % 4294967296)
    ∧ (∀ w, w < 4294967296 →
        (le32bytes w).foldr (fun b acc => b + 256 * acc) 0 = w
        ∧ ∀ b ∈ le32bytes w, b < 256) := by
  have hspec := flashAddrsGo_spec page lenB lenB 0 (by omega)
  refine ⟨?_, ?_, ?_⟩
  · rw [flashAddrs, hspec]
    simp
  · intro n hn
    rw [flashAddrs, hspec, getD_range_map, if_pos (by omega)]
    unfold flashAddr
    congr 1
    omega
  · intro w hw
    constructor
    · simp only [le32bytes, List.foldr]
      omega
    · intro b hb
      simp only [le32bytes, List.mem_cons, List.not_mem_nil, or_false] at hb
      rcases hb with rfl | rfl | rfl | rfl <;> omega

/-- Closed instance of C2's amended theorem: a 768-byte image at page offset
5 has pages at addresses 5, 69, 133, each shifted as 4 little-endian bytes. -/
theorem flashAddrs_amended_witness :
    (flashAddrs 5 768).length = 3
    ∧ (flashAddrs 5 768).getD 2 0 = (5 + 64 * 2) % 4294967296
    ∧ (le32bytes 133).foldr (fun b acc => b + 256 * acc) 0 = 133 := by
  refine ⟨?_, ?_, ?_⟩
  · have h := (flashAddrs_amended 5 768).1
    simpa using h
  · exact (flashAddrs_amended 5 768).2.1 2 (by norm_num)
  · exact ((flashAddrs_amended 5 768).2.2 133 (by norm_num)).1

/-! ## C5 lemmas: writeSRAM chunking -/

theorem sramLoop_succ (fuel off remains : Nat) (st : Hw) :
    sramLoop (fuel + 1) off remains st =
      if remains = 0 then st
      else if remains < 524288 then
        { st with log := Ev.drStream off remains Tap.runTestIdle :: st.log }
      else
        sramLoop fuel (off + 65536) (remains - 524288)
          { st with log := Ev.drStream off 524288 Tap.shiftDR :: st.log } := rfl

theorem sramChunksGo_succ (fuel off remains : Nat) :
    sramChunksGo (fuel + 1) off remains =
      if remains = 0 then []
      else if remains < 524288 then [(off, remains, Tap.runTestIdle)]
      else (off, 524288, Tap.shiftDR) :: sramChunksGo fuel (off + 65536) (remains - 524288) :=
  rfl

theorem sramLoop_state : ∀ fuel off remains (st : Hw),
    (sramLoop fuel off remains st).regs = st.regs ∧
    (sramLoop fuel off remains st).idx = st.idx ∧
    (sramLoop fuel off remains st).freq = st.freq := by
  intro fuel
  induction fuel with
  | zero => intro off remains st; exact ⟨rfl, rfl, rfl⟩
  | succ n ih =>
    intro off remains st
    rw [sramLoop_succ]
    by_cases h0 : remains = 0
    · rw [if_pos h0]; exact ⟨rfl, rfl, rfl⟩
    · rw [if_neg h0]
      by_cases h1 : remains < 524288
      · rw [if_pos h1]; exact ⟨rfl, rfl, rfl⟩
      · rw [if_neg h1]
        exact ih (off + 65536) (remains - 524288) _

theorem sramLoop_stream : ∀ fuel off remains (st : Hw),
    streamEvs (sramLoop fuel off remains st).log =
      (sramChunksGo fuel off remains).reverse ++ streamEvs st.log := by
  intro fuel
  induction fuel with
  | zero => intro off remains st; simp [sramLoop, sramChunksGo]
  | succ n ih =>
    intro off remains st
    rw [sramLoop_succ, sramChunksGo_succ]
    by_cases h0 : remains = 0
    · rw [if_pos h0, if_pos h0]
      simp
    · rw [if_neg h0, if_neg h0]
      by_cases h1 : remains < 524288
      · rw [if_pos h1, if_pos h1]
        simp [streamEvs]
      · rw [if_neg h1, if_neg h1]
        rw [ih]
        show _ ++ streamEvs (Ev.drStream off 524288 Tap.shiftDR :: st.log) = _
        simp [streamEvs, List.append_assoc]

theorem sramChunksGo_spec : ∀ fuel off remains, remains ≤ fuel →
    sramChunksGo fuel off remains =
      (List.range (remains / 524288)).map (fun n => (off + 65536 * n, 524288, Tap.shiftDR))
        ++ (if remains % 524288 = 0 then []
            else [(off + 65536 * (remains / 524288), remains % 524288, Tap.runTestIdle)]) := by
  intro fuel
  induction fuel with
  | zero =>
    intro off remains h
    have h0 : remains = 0 := by omega
    subst h0
    simp [sramChunksGo]
  | succ m ih =>
    intro off remains h
    rw [sramChunksGo_succ]
    by_cases h0 : remains = 0
    · subst h0
      rw [if_pos rfl]
      simp
    · rw [if_neg h0]
      by_cases h1 : remains < 524288
      · rw [if_pos h1]
        have hd : remains / 524288 = 0 := by omega
        have hm : remains % 524288 = remains := by omega
        rw [hd, hm, if_neg h0]
        simp
      · rw [if_neg h1, ih (off + 65536) (remains - 524288) (by omega)]
        have hd : remains / 524288 = (remains - 524288) / 524288 + 1 := by omega
        have hm : remains % 524288 = (remains - 524288) % 524288 := by omega
        rw [hd, List.range_succ_eq_map, List.map_cons, List.map_map, Nat.mul_zero,
          Nat.add_zero, hm, List.cons_append]
        have hmap : List.map
            ((fun n => ((off : Nat) + 65536 * n, (524288 : Nat), Tap.shiftDR)) ∘ Nat.succ)
            (List.range ((remains - 524288) / 524288)) =
            List.map (fun n => (off + 65536 + 65536 * n, (524288 : Nat), Tap.shiftDR))
            (List.range ((remains - 524288) / 524288)) := by
          apply List.map_congr_left
          intro n _
          show (off + 65536 * (n + 1), (524288 : Nat), Tap.shiftDR) = _
          have harith : off + 65536 * (n + 1) = off + 65536 + 65536 * n := by omega
          rw [harith]
        rw [hmap]
        simp only [Nat.add_zero]
        by_cases hz : (remains - 524288) % 524288 = 0
        · rw [if_pos hz, if_pos hz]
        · rw [if_neg hz, if_neg hz]
          have harith : off + 65536 * ((remains - 524288) / 524288 + 1) =
              off + 65536 + 65536 * ((remains - 524288) / 524288) := by omega
          rw [harith]

theorem mem_of_mem_dropLast {α : Type} {l : List α} {a : α}
    (h : a ∈ l.dropLast) : a ∈ l := by
  rw [List.dropLast_eq_take] at h
  exact List.take_subset _ _ h

theorem sramChunks_facts (L : Nat) :
    (∀ c ∈ (sramChunks L).dropLast, c.2.1 = 524288 ∧ c.2.2 = Tap.shiftDR)
    ∧ (L % 524288 = 0 → ∀ c ∈ sramChunks L, c.2.1 = 524288 ∧ c.2.2 = Tap.shiftDR)
    ∧ (L % 524288 ≠ 0 →
        (sramChunks L).getLast? =
          some (65536 * (L / 524288), L % 524288, Tap.runTestIdle)) := by
  have hspec := sramChunksGo_spec L 0 L (Nat.le_refl L)
  rw [sramChunks, hspec]
  by_cases hz : L % 524288 = 0
  · rw [if_pos hz]
    refine ⟨?_, ?_, ?_⟩
    · intro c hc
      have hc2 := mem_of_mem_dropLast hc
      rw [List.append_nil, List.mem_map] at hc2
      obtain ⟨n, _, rfl⟩ := hc2
      exact ⟨rfl, rfl⟩
    · intro _ c hc
      rw [List.append_nil, List.mem_map] at hc
      obtain ⟨n, _, rfl⟩ := hc
      exact ⟨rfl, rfl⟩
    · intro hne
      exact absurd hz hne
  · rw [if_neg hz]
    refine ⟨?_, ?_, ?_⟩
    · intro c hc
      rw [List.dropLast_concat] at hc
      rw [List.mem_map] at hc
      obtain ⟨n, _, rfl⟩ := hc
      exact ⟨rfl, rfl⟩
    · intro h0
      exact absurd h0 hz
    · intro _
      rw [List.getLast?_concat]
      norm_num

/-- C5 counterexample: an image of exactly 2^19 bits is streamed as a single
chunk whose TAP transition is the continue-shifting SHIFT_DR, not
RUN_TEST_IDLE: the source only switches to RUN_TEST_IDLE when
`remains < pstep`, so an exact multiple of the chunk size never does. -/
theorem writeSRAM_final_chunk_cex :
    streamEvs ((writeSRAM gFix 524288 0 stFix).2.log) = [(0, 524288, Tap.shiftDR)]
    ∧ Tap.shiftDR ≠ Tap.runTestIdle := by
  constructor
  · rfl
  · decide

/-- C5 amended: `write_sram` streams the payload in 2^19-bit chunks; every
chunk other than the last uses the continue-shifting SHIFT_DR transition; a
final chunk shorter than 2^19 bits transitions to RUN_TEST_IDLE, but when the
bit length is an exact multiple of 2^19 the last (possibly only) chunk also
uses SHIFT_DR; and `write_sram` reports success iff the status register's
done-final bit (1 << 13) is set in the status read performed afterwards. -/
theorem writeSRAM_amended (g : GowinS) (L cks : Nat) (st : Hw)
    (hv : g.verbose = false) :
    ((writeSRAM g L cks st).1 = true ↔ st.regs st.idx &&& 0x2000 ≠ 0)
    ∧ streamEvs (writeSRAM g L cks st).2.log = (sramChunks L).reverse ++ streamEvs st.log
    ∧ (∀ c ∈ (sramChunks L).dropLast, c.2.1 = 524288 ∧ c.2.2 = Tap.shiftDR)
    ∧ (L % 524288 = 0 → ∀ c ∈ sramChunks L, c.2.1 = 524288 ∧ c.2.2 = Tap.shiftDR)
    ∧ (L % 524288 ≠ 0 →
        (sramChunks L).getLast? =
          some (65536 * (L / 524288), L % 524288, Tap.runTestIdle)) := by
  have hfacts := sramChunks_facts L
  refine ⟨?_, ?_, hfacts.1, hfacts.2.1, hfacts.2.2⟩
  · simp only [writeSRAM, hv, Bool.false_eq_true, if_false]
    have hstate := sramLoop_state L 0 L
      (send_command 0x17 (send_command 0x12 (send_command 0x15 st)))
    set sl := sramLoop L 0 L
      (send_command 0x17 (send_command 0x12 (send_command 0x15 st))) with hsl
    have hregs : (send_command 0x02 (send_command 0x3A (send_command 0x08
        ({ send_command 0x0a sl with
            log := Ev.drW (le32bytes (cks % 4294967296)) 32 ::
              (send_command 0x0a sl).log })))).regs = st.regs := hstate.1
    have hidx : (send_command 0x02 (send_command 0x3A (send_command 0x08
        ({ send_command 0x0a sl with
            log := Ev.drW (le32bytes (cks % 4294967296)) 32 ::
              (send_command 0x0a sl).log })))).idx = st.idx := hstate.2.1
    by_cases hbit : st.regs st.idx &&& 0x2000 ≠ 0
    · rw [if_pos (by rw [readStatusReg_eq]; simpa [hregs, hidx] using hbit)]
      simpa using hbit
    · rw [if_neg (by rw [readStatusReg_eq]; simpa [hregs, hidx] using hbit)]
      simpa using hbit
  · simp only [writeSRAM, hv, Bool.false_eq_true, if_false]
    rw [apply_ite Prod.snd, ite_self, readStatusReg_eq]
    simp only [streamEvs, send_command]
    rw [sramLoop_stream]
    simp only [streamEvs, send_command]
    rfl

/-- Closed instance of C5's amended theorem: a 10^6-bit image with the
done-final bit set afterwards loads successfully; its final chunk is the
475712-bit remainder moving to RUN_TEST_IDLE at byte offset 65536. -/
theorem writeSRAM_amended_witness :
    (writeSRAM gFix 1000000 0 ⟨fun _ => 0x2000, 0, 2500000, []⟩).1 = true
    ∧ (sramChunks 1000000).getLast? = some (65536, 475712, Tap.runTestIdle) := by
  have h := writeSRAM_amended gFix 1000000 0 ⟨fun _ => 0x2000, 0, 2500000, []⟩ rfl
  refine ⟨h.1.mpr (by decide), ?_⟩
  have h2 := h.2.2.2.2 (by decide)
  simpa using h2

/-! ## C6: checkCRC -/

/-- C6: `check_crc` compares the low 16 bits of the user-code register with
the image's computed checksum, falling back to comparing the full 32-bit
value with the hex-parsed `checkSum` header field; when both fail (or the
header value is absent/empty) it only reports the mismatch: the call returns
normally having issued nothing but the user-code read, so no exception is
raised and nothing is rolled back. -/
theorem checkCRC_spec (img : Image) (st : Hw) :
    ((checkCRC img st).1 = false ↔
      (0xffff &&& st.regs st.idx ≠ img.checksum ∧
        ∀ s, img.hdrCheckSum = some s → (s = [] ∨ st.regs st.idx ≠ strtolHex s)))
    ∧ ((checkCRC img st).1 = false →
        (checkCRC img st).2.log =
          Ev.errFail :: Ev.drR 32 (st.regs st.idx) :: Ev.clk 5 :: Ev.ir 0x13 :: st.log)
    ∧ (checkCRC img st).2.idx = st.idx + 1 := by
  have hread : readUserCode st =
      (st.regs st.idx,
        { st with idx := st.idx + 1,
                  log := Ev.drR 32 (st.regs st.idx) :: Ev.clk 5 :: Ev.ir 0x13 :: st.log }) :=
    rfl
  simp only [checkCRC, hread]
  by_cases h1 : 0xffff &&& st.regs st.idx = img.checksum
  · rw [if_pos h1]
    refine ⟨?_, fun hfalse => absurd hfalse (by simp), rfl⟩
    constructor
    · intro hfalse
      exact absurd hfalse (by simp)
    · rintro ⟨hc, _⟩
      exact absurd h1 hc
  · rw [if_neg h1]
    split
    · rename_i s0 heq
      by_cases h2 : s0 ≠ [] ∧ st.regs st.idx = strtolHex s0
      · rw [if_pos h2]
        refine ⟨?_, fun hfalse => absurd hfalse (by simp), rfl⟩
        constructor
        · intro hfalse
          exact absurd hfalse (by simp)
        · rintro ⟨_, hall⟩
          rcases hall s0 heq with hnil | hne
          · exact absurd hnil h2.1
          · exact absurd h2.2 hne
      · rw [if_neg h2]
        refine ⟨?_, fun _ => rfl, rfl⟩
        constructor
        · intro _
          refine ⟨h1, ?_⟩
          intro s hs
          rw [heq] at hs
          cases hs
          by_cases hnil : s0 = []
          · exact Or.inl hnil
          · exact Or.inr (fun he => h2 ⟨hnil, he⟩)
        · intro _
          trivial
    · rename_i heq
      refine ⟨?_, fun _ => rfl, rfl⟩
      constructor
      · intro _
        refine ⟨h1, ?_⟩
        intro s hs
        rw [heq] at hs
        exact absurd hs (by simp)
      · intro _
        trivial

/-- Closed instance of C6's theorem: user code 0xdeadbeef matches neither
checksum 0x1234 (low 16 bits are 0xbeef) nor the header value "12" (= 0x12),
so `check_crc` reports a mismatch and its run is just the read plus the
error report. -/
theorem checkCRC_spec_witness :
    (checkCRC ⟨fun _ => 0, 0, 0x1234, some [49, 50]⟩
      ⟨fun _ => 0xdeadbeef, 0, 2500000, []⟩).1 = false
    ∧ (checkCRC ⟨fun _ => 0, 0, 0x1234, some [49, 50]⟩
        ⟨fun _ => 0xdeadbeef, 0, 2500000, []⟩).2.log =
      [Ev.errFail, Ev.drR 32 0xdeadbeef, Ev.clk 5, Ev.ir 0x13] := by
  have h := checkCRC_spec ⟨fun _ => 0, 0, 0x1234, some [49, 50]⟩
    ⟨fun _ => 0xdeadbeef, 0, 2500000, []⟩
  have hf : (checkCRC ⟨fun _ => 0, 0, 0x1234, some [49, 50]⟩
      ⟨fun _ => 0xdeadbeef, 0, 2500000, []⟩).1 = false := by
    refine h.1.mpr ⟨by decide, ?_⟩
    intro s hs
    cases hs
    refine Or.inr (by decide)
  exact ⟨hf, h.2.1 hf⟩

/-! ## C7: constructor idcode check -/

/-- C7 counterexample: the constructor compares the image's header idcode
only after masking off its upper four bits (`fs_idcode & 0x0fffffff`), so an
image declaring 0x12345678 against hardware idcode 0x02345678 differs from it
yet construction succeeds. -/
theorem mkGowin_masked_idcode_cex :
    exOk (mkGowin 0x02345678 FileKind.fsFile false true 0x12345678 false true false) = true
    ∧ (0x12345678 : Nat) ≠ 0x02345678 := by
  constructor
  · rfl
  · decide

/-- C7 amended: for a `.fs` image, construction fails with the
idcode-mismatch error iff the image idcode with its top 4 bits masked off
differs from the hardware idcode (`(fs_idcode & 0x0fffffff) != idcode`);
when the masked values agree (and the image parses, with no microcontroller
firmware supplied) construction succeeds, resolving the quirk flags from the
hardware idcode; the claim's own instance (image 0x12345678, hardware
0x0900281B) does fail.  The constructor issues no JTAG command at all: it is
a pure function of the already-read idcode. -/
theorem mkGowin_idcode_amended (idcode fsIdcode : Nat) (ef vb mpo : Bool) :
    ((mkGowin idcode FileKind.fsFile ef true fsIdcode false mpo vb =
        Except.error GErr.idcodeMismatch) ↔ fsIdcode &&& 0x0fffffff ≠ idcode)
    ∧ (fsIdcode &&& 0x0fffffff = idcode →
        mkGowin idcode FileKind.fsFile ef true fsIdcode false mpo vb =
          Except.ok (quirkSession idcode ef vb))
    ∧ mkGowin 0x0900281B FileKind.fsFile false true 0x12345678 false true false =
        Except.error GErr.idcodeMismatch := by
  refine ⟨?_, ?_, by rfl⟩
  · constructor
    · intro heq
      by_contra hm
      simp [mkGowin, hm] at heq
    · intro hm
      simp [mkGowin, hm]
  · intro hm
    simp [mkGowin, hm]

/-- Closed instance of C7's amended theorem: matching idcodes (0x0900281B on
both sides, the GW1N1 scenario of the spec) construct successfully, and the
resulting session has the GW1N1 quirk flag set. -/
theorem mkGowin_idcode_amended_witness :
    mkGowin 0x0900281B FileKind.fsFile false true 0x0900281B false true false =
      Except.ok (quirkSession 0x0900281B false false)
    ∧ (quirkSession 0x0900281B false false).is_gw1n1 = true := by
  refine ⟨(mkGowin_idcode_amended 0x0900281B 0x0900281B false false true).2.1 (by decide),
    by decide⟩

/-! ## C9: GW2A spi_put buffer overrun -/

/-- C9 fails on the code: with `len = 1`, a response buffer and a transmit
buffer supplied, the GW2A path of `spi_put` writes `jtx[1]` and reads
`jrx[2]` although both stack arrays were declared with size 1 — `len` is
incremented after the arrays are sized, and the reconstruction loop reads
`jrx[i+1]` up to the incremented length. -/
theorem spi_put_gw2a_oob :
    spi_put_gw2a_len 1 true = 2
    ∧ 1 ∈ spi_put_gw2a_jtxWrites 1 true true
    ∧ ¬ 1 < spi_put_gw2a_bufSize 1
    ∧ 2 ∈ spi_put_gw2a_jrxReads 1 true
    ∧ ¬ 2 < spi_put_gw2a_bufSize 1 := by
  decide

/-! ## C10: programFlash POR/VLD guard -/

/-- C10: `programFlash` first disables configuration, forces the TAP to
TEST_LOGIC_RESET and reads the status register; when neither Gowin-VLD
(1 << 12) nor POR (1 << 16) is set it returns immediately: its whole run is
the prelude plus that one status read, and in particular no erase or write
command (`ERASE_SRAM` 0x05, `EFLASH_ERASE` 0x75, `EF_PROGRAM` 0x71) is ever
issued to the device. -/
theorem programFlash_por_guard (g : GowinS) (img : Image) (mcufw : Option Image)
    (st : Hw) (h : st.regs st.idx &&& 0x11000 = 0) :
    (programFlash g img mcufw st).regs = st.regs
    ∧ (programFlash g img mcufw st).idx = st.idx + 1
    ∧ (programFlash g img mcufw st).freq = 2500000
    ∧ (programFlash g img mcufw st).log =
        Ev.drR 32 (st.regs st.idx) :: Ev.clk 5 :: Ev.ir 0x41 ::
          Ev.tapState Tap.testLogicReset :: Ev.clk 5 :: Ev.ir 0 :: Ev.clk 5 ::
          Ev.ir 0x3A :: Ev.clkFreq 2500000 :: st.log
    ∧ List.count (Ev.ir 0x05) (programFlash g img mcufw st).log =
        List.count (Ev.ir 0x05) st.log
    ∧ List.count (Ev.ir 0x75) (programFlash g img mcufw st).log =
        List.count (Ev.ir 0x75) st.log
    ∧ List.count (Ev.ir 0x71) (programFlash g img mcufw st).log =
        List.count (Ev.ir 0x71) st.log := by
  have hrun : programFlash g img mcufw st =
      { regs := st.regs, idx := st.idx + 1, freq := 2500000,
        log := Ev.drR 32 (st.regs st.idx) :: Ev.clk 5 :: Ev.ir 0x41 ::
          Ev.tapState Tap.testLogicReset :: Ev.clk 5 :: Ev.ir 0 :: Ev.clk 5 ::
          Ev.ir 0x3A :: Ev.clkFreq 2500000 :: st.log } := by
    simp only [programFlash, send_command, readStatusReg, readReg32]
    rw [if_pos h]
  refine ⟨by rw [hrun], by rw [hrun], by rw [hrun], by rw [hrun], ?_, ?_, ?_⟩ <;>
    rw [hrun] <;> simp [List.count_cons]

/-- Closed instance of C10's theorem: with an all-zero status oracle
(VLD and POR both clear), `programFlash` performs only the prelude and the
single status read. -/
theorem programFlash_por_guard_witness :
    (programFlash gFix ⟨fun _ => 0, 0, 0, none⟩ none stFix).log =
      [Ev.drR 32 0, Ev.clk 5, Ev.ir 0x41, Ev.tapState Tap.testLogicReset,
        Ev.clk 5, Ev.ir 0, Ev.clk 5, Ev.ir 0x3A, Ev.clkFreq 2500000]
    ∧ (programFlash gFix ⟨fun _ => 0, 0, 0, none⟩ none stFix).idx = 1 := by
  have h := programFlash_por_guard gFix ⟨fun _ => 0, 0, 0, none⟩ none stFix (by decide)
  refine ⟨?_, h.2.1⟩
  have hl := h.2.2.2.1
  simpa using hl

/-! ## C3 lemmas: eraseFLASH -/

theorem pollFlag_first_success (mask value : Nat) (st : Hw)
    (h : st.regs st.idx &&& mask = value) :
    pollFlag mask value st = (true, afterRead st) := by
  show pollFuel mask value (100000000 + 1) st = _
  rw [pollFuel_succ, if_neg (by norm_num), if_pos h]

theorem enable_first_success (st : Hw) (h : st.regs st.idx &&& 0x80 = 0x80) :
    enableCfg st = (true, afterRead (send_command 0x15 st)) :=
  pollFlag_first_success 0x80 0x80 (send_command 0x15 st) h

theorem disable_first_success (st : Hw) (h : st.regs st.idx &&& 0x80 = 0) :
    disableCfg st = (true, afterRead (send_command 0x02 (send_command 0x3A st))) :=
  pollFlag_first_success 0x80 0 (send_command 0x02 (send_command 0x3A st)) h

theorem iterCycles_state : ∀ n (st : Hw),
    (iterCycles n st).regs = st.regs ∧ (iterCycles n st).idx = st.idx ∧
    (iterCycles n st).freq = st.freq := by
  intro n
  induction n with
  | zero => intro st; exact ⟨rfl, rfl, rfl⟩
  | succ m ih =>
    intro st
    exact ih _

theorem iterCycles_count75 : ∀ n (st : Hw),
    List.count (Ev.ir 0x75) (iterCycles n st).log = List.count (Ev.ir 0x75) st.log := by
  intro n
  induction n with
  | zero => intro st; rfl
  | succ m ih =>
    intro st
    rw [show iterCycles (m + 1) st = iterCycles m
      { st with log := Ev.tapState Tap.runTestIdle :: Ev.clk 32 ::
          Ev.tapState Tap.shiftDR :: st.log } from rfl]
    rw [ih]
    simp [List.count_cons]

theorem iterCycles_countShift : ∀ n (st : Hw),
    List.count (Ev.tapState Tap.shiftDR) (iterCycles n st).log =
      List.count (Ev.tapState Tap.shiftDR) st.log + n := by
  intro n
  induction n with
  | zero => intro st; rfl
  | succ m ih =>
    intro st
    rw [show iterCycles (m + 1) st = iterCycles m
      { st with log := Ev.tapState Tap.runTestIdle :: Ev.clk 32 ::
          Ev.tapState Tap.shiftDR :: st.log } from rfl]
    rw [ih]
    show List.count _ (Ev.tapState Tap.runTestIdle :: Ev.clk 32 ::
      Ev.tapState Tap.shiftDR :: st.log) + m = _
    rw [count_cons_ne' _ _ _ (by simp), count_cons_ne' _ _ _ (by simp),
      List.count_cons_self]
    omega

theorem eraseAttempt_state (g : GowinS) (st : Hw) :
    (eraseAttempt g st).regs = st.regs ∧ (eraseAttempt g st).idx = st.idx ∧
    (eraseAttempt g st).freq = st.freq := by
  unfold eraseAttempt
  have h := iterCycles_state (if g.is_gw1n1 then 65 else 1)
    { send_command 0x75 st with
      log := Ev.tapState Tap.runTestIdle :: (send_command 0x75 st).log }
  exact ⟨h.1, h.2.1, h.2.2⟩

theorem eraseAttempt_count75 (g : GowinS) (st : Hw) :
    List.count (Ev.ir 0x75) (eraseAttempt g st).log =
      List.count (Ev.ir 0x75) st.log + 1 := by
  unfold eraseAttempt
  rw [sendClkUs, count_cons_ne' _ _ _ (by simp), iterCycles_count75]
  show List.count _ (Ev.tapState Tap.runTestIdle :: Ev.clk 5 :: Ev.ir 0x75 :: st.log) = _
  rw [count_cons_ne' _ _ _ (by simp), count_cons_ne' _ _ _ (by simp),
    List.count_cons_self]

theorem eraseAttempt_countShift (g : GowinS) (st : Hw) :
    List.count (Ev.tapState Tap.shiftDR) (eraseAttempt g st).log =
      List.count (Ev.tapState Tap.shiftDR) st.log + (if g.is_gw1n1 then 65 else 1) := by
  unfold eraseAttempt
  rw [sendClkUs, count_cons_ne' _ _ _ (by simp), iterCycles_countShift]
  show List.count _ (Ev.tapState Tap.runTestIdle :: Ev.clk 5 :: Ev.ir 0x75 :: st.log) + _ = _
  rw [count_cons_ne' _ _ _ (by simp), count_cons_ne' _ _ _ (by simp),
    count_cons_ne' _ _ _ (by simp)]

theorem attemptsFrom_succ (done : Nat → Bool) (fuel k : Nat) :
    attemptsFrom done (fuel + 1) k =
      if done k then 1 else 1 + attemptsFrom done fuel (k + 1) := rfl

theorem attemptsFrom_congr {f h : Nat → Bool} :
    ∀ fuel j, (∀ k, f k = h k) → attemptsFrom f fuel j = attemptsFrom h fuel j := by
  intro fuel
  induction fuel with
  | zero => intro j _; rfl
  | succ m ih =>
    intro j he
    rw [attemptsFrom_succ, attemptsFrom_succ, he j]
    by_cases hj : h j
    · rw [if_pos hj, if_pos hj]
    · rw [if_neg hj, if_neg hj, ih (j + 1) he]

theorem attemptsFrom_shift (done : Nat → Bool) :
    ∀ fuel j, attemptsFrom done fuel (j + 1) =
      attemptsFrom (fun k => done (k + 1)) fuel j := by
  intro fuel
  induction fuel with
  | zero => intro j; rfl
  | succ m ih =>
    intro j
    rw [attemptsFrom_succ, attemptsFrom_succ]
    by_cases hj : done (j + 1)
    · rw [if_pos hj, if_pos hj]
    · rw [if_neg hj, if_neg hj, ih (j + 1)]

theorem attemptsFrom_le (done : Nat → Bool) :
    ∀ fuel k, attemptsFrom done fuel k ≤ fuel := by
  intro fuel
  induction fuel with
  | zero => intro k; exact Nat.le_refl 0
  | succ m ih =>
    intro k
    rw [attemptsFrom_succ]
    by_cases hk : done k
    · rw [if_pos hk]; omega
    · rw [if_neg hk]
      have := ih (k + 1)
      omega

theorem attemptsFrom_pos (done : Nat → Bool) (fuel k : Nat) (h : 1 ≤ fuel) :
    1 ≤ attemptsFrom done fuel k := by
  match fuel, h with
  | m + 1, _ =>
    rw [attemptsFrom_succ]
    by_cases hk : done k
    · rw [if_pos hk]
    · rw [if_neg hk]; omega

theorem attemptsFrom_first (done : Nat → Bool) :
    ∀ fuel j, (∀ i, i + 1 < attemptsFrom done fuel j → done (j + i) = false)
      ∧ (attemptsFrom done fuel j < fuel →
          done (j + (attemptsFrom done fuel j - 1)) = true) := by
  intro fuel
  induction fuel with
  | zero =>
    intro j
    constructor
    · intro i hi
      simp [attemptsFrom] at hi
    · intro h
      omega
  | succ m ih =>
    intro j
    rw [attemptsFrom_succ]
    by_cases hj : done j
    · rw [if_pos hj]
      constructor
      · intro i hi
        omega
      · intro _
        simpa using hj
    · rw [if_neg hj]
      constructor
      · intro i hi
        match i with
        | 0 => simpa using hj
        | i' + 1 =>
          have h2 := (ih (j + 1)).1 i' (by omega)
          have harith : j + 1 + i' = j + (i' + 1) := by omega
          rw [harith] at h2
          exact h2
      · intro hlt
        by_cases hm : m = 0
        · subst hm
          rw [show attemptsFrom done 0 (j + 1) = 0 from rfl] at hlt
          omega
        · have hpos := attemptsFrom_pos done m (j + 1) (by omega)
          have h2 := (ih (j + 1)).2 (by omega)
          have harith : j + 1 + (attemptsFrom done m (j + 1) - 1) =
              j + (1 + attemptsFrom done m (j + 1) - 1) := by omega
          rw [harith] at h2
          exact h2

theorem count75_afterRead (st : Hw) :
    List.count (Ev.ir 0x75) (afterRead st).log = List.count (Ev.ir 0x75) st.log := by
  show List.count _ (Ev.drR 32 (st.regs st.idx) :: Ev.clk 5 :: Ev.ir 0x41 :: st.log) = _
  rw [count_cons_ne' _ _ _ (by simp), count_cons_ne' _ _ _ (by simp),
    count_cons_ne' _ _ _ (by simp)]

theorem countShift_afterRead (st : Hw) :
    List.count (Ev.tapState Tap.shiftDR) (afterRead st).log =
      List.count (Ev.tapState Tap.shiftDR) st.log := by
  show List.count _ (Ev.drR 32 (st.regs st.idx) :: Ev.clk 5 :: Ev.ir 0x41 :: st.log) = _
  rw [count_cons_ne' _ _ _ (by simp), count_cons_ne' _ _ _ (by simp),
    count_cons_ne' _ _ _ (by simp)]

theorem count75_send (c : Nat) (hc : c ≠ 0x75) (st : Hw) :
    List.count (Ev.ir 0x75) (send_command c st).log =
      List.count (Ev.ir 0x75) st.log := by
  show List.count _ (Ev.clk 5 :: Ev.ir c :: st.log) = _
  rw [count_cons_ne' _ _ _ (by simp), count_cons_ne' _ _ _ (by simp [Ne.symm hc])]

theorem countShift_send (c : Nat) (st : Hw) :
    List.count (Ev.tapState Tap.shiftDR) (send_command c st).log =
      List.count (Ev.tapState Tap.shiftDR) st.log := by
  show List.count _ (Ev.clk 5 :: Ev.ir c :: st.log) = _
  rw [count_cons_ne' _ _ _ (by simp), count_cons_ne' _ _ _ (by simp)]

theorem eraseLoop_succ (g : GowinS) (fuel : Nat) (st : Hw) :
    eraseLoop g (fuel + 1) st =
      (if (enableCfg (if g.verbose then (readStatusReg st).2 else st)).1 = false then
        (false, errFailEv (enableCfg (if g.verbose then (readStatusReg st).2 else st)).2)
      else if (disableCfg (eraseAttempt g
            (enableCfg (if g.verbose then (readStatusReg st).2 else st)).2)).1 = false then
        (false, errFailEv (disableCfg (eraseAttempt g
          (enableCfg (if g.verbose then (readStatusReg st).2 else st)).2)).2)
      else if (readStatusReg
            { (disableCfg (eraseAttempt g
                (enableCfg (if g.verbose then (readStatusReg st).2 else st)).2)).2 with
              log := Ev.sleepUs 500000 :: Ev.flush ::
                (disableCfg (eraseAttempt g
                  (enableCfg (if g.verbose then (readStatusReg st).2 else st)).2)).2.log }).1
          &&& 0x2000 = 0 then
        (true, (readStatusReg
            { (disableCfg (eraseAttempt g
                (enableCfg (if g.verbose then (readStatusReg st).2 else st)).2)).2 with
              log := Ev.sleepUs 500000 :: Ev.flush ::
                (disableCfg (eraseAttempt g
                  (enableCfg (if g.verbose then (readStatusReg st).2 else st)).2)).2.log }).2)
      else eraseLoop g fuel (readStatusReg
            { (disableCfg (eraseAttempt g
                (enableCfg (if g.verbose then (readStatusReg st).2 else st)).2)).2 with
              log := Ev.sleepUs 500000 :: Ev.flush ::
                (disableCfg (eraseAttempt g
                  (enableCfg (if g.verbose then (readStatusReg st).2 else st)).2)).2.log }).2) :=
  rfl

theorem eraseLoop_step (g : GowinS) (hv : g.verbose = false) (fuel : Nat) (st : Hw)
    (hE0 : st.regs st.idx &&& 0x80 = 0x80)
    (hD0 : st.regs (st.idx + 1) &&& 0x80 = 0) :
    ∃ st' : Hw,
      eraseLoop g (fuel + 1) st =
        (if st.regs (st.idx + 2) &&& 0x2000 = 0 then (true, st')
          else eraseLoop g fuel st')
      ∧ st'.idx = st.idx + 3 ∧ st'.regs = st.regs ∧ st'.freq = st.freq
      ∧ List.count (Ev.ir 0x75) st'.log = List.count (Ev.ir 0x75) st.log + 1
      ∧ List.count (Ev.tapState Tap.shiftDR) st'.log =
          List.count (Ev.tapState Tap.shiftDR) st.log +
            (if g.is_gw1n1 then 65 else 1) := by
  have hen := enable_first_success st hE0
  set A := afterRead (send_command 0x15 st) with hA
  have hstA := eraseAttempt_state g A
  have hD0' : (eraseAttempt g A).regs (eraseAttempt g A).idx &&& 0x80 = 0 := by
    rw [hstA.1, hstA.2.1]
    exact hD0
  have hdis := disable_first_success (eraseAttempt g A) hD0'
  set B := afterRead (send_command 0x02 (send_command 0x3A (eraseAttempt g A))) with hB
  set C : Hw := { B with log := Ev.sleepUs 500000 :: Ev.flush :: B.log } with hC
  have hCregs : C.regs = st.regs := hstA.1
  have hCidx : C.idx = st.idx + 2 := by
    show (eraseAttempt g A).idx + 1 = st.idx + 2
    rw [hstA.2.1, hA]
    show st.idx + 1 + 1 = st.idx + 2
    omega
  have hCfreq : C.freq = st.freq := hstA.2.2
  have hval : (readStatusReg C).1 = st.regs (st.idx + 2) := by
    show C.regs C.idx = st.regs (st.idx + 2)
    rw [hCregs, hCidx]
  refine ⟨(readStatusReg C).2, ?_, ?_, hCregs, hCfreq, ?_, ?_⟩
  · rw [eraseLoop_succ]
    simp only [hv, Bool.false_eq_true, if_false]
    rw [hen]
    dsimp only
    rw [hdis]
    dsimp only
    simp only [Bool.true_eq_false, if_false]
    rw [← hC, hval]
  · show C.idx + 1 = st.idx + 3
    rw [hCidx]

  · show List.count _ (afterRead C).log = _
    rw [count75_afterRead]
    rw [hC]
    show List.count _ (Ev.sleepUs 500000 :: Ev.flush :: B.log) = _
    rw [count_cons_ne' _ _ _ (by simp), count_cons_ne' _ _ _ (by simp), hB,
      count75_afterRead, count75_send 0x02 (by norm_num), count75_send 0x3A (by norm_num),
      eraseAttempt_count75, hA, count75_afterRead, count75_send 0x15 (by norm_num)]
  · show List.count _ (afterRead C).log = _
    rw [countShift_afterRead]
    rw [hC]
    show List.count _ (Ev.sleepUs 500000 :: Ev.flush :: B.log) = _
    rw [count_cons_ne' _ _ _ (by simp), count_cons_ne' _ _ _ (by simp), hB,
      countShift_afterRead, countShift_send 0x02, countShift_send 0x3A,
      eraseAttempt_countShift, hA, countShift_afterRead, countShift_send 0x15]

theorem eraseLoop_pattern (g : GowinS) (hv : g.verbose = false) :
    ∀ fuel (st : Hw),
      (∀ k, st.regs (st.idx + 3 * k) &&& 0x80 = 0x80) →
      (∀ k, st.regs (st.idx + 3 * k + 1) &&& 0x80 = 0) →
      (eraseLoop g fuel st).1 = true
      ∧ (eraseLoop g fuel st).2.idx = st.idx +
          3 * attemptsFrom (fun k => st.regs (st.idx + 3 * k + 2) &&& 0x2000 == 0) fuel 0
      ∧ (eraseLoop g fuel st).2.regs = st.regs
      ∧ List.count (Ev.ir 0x75) (eraseLoop g fuel st).2.log =
          List.count (Ev.ir 0x75) st.log +
            attemptsFrom (fun k => st.regs (st.idx + 3 * k + 2) &&& 0x2000 == 0) fuel 0
      ∧ List.count (Ev.tapState Tap.shiftDR) (eraseLoop g fuel st).2.log =
          List.count (Ev.tapState Tap.shiftDR) st.log +
            attemptsFrom (fun k => st.regs (st.idx + 3 * k + 2) &&& 0x2000 == 0) fuel 0 *
              (if g.is_gw1n1 then 65 else 1) := by
  intro fuel
  induction fuel with
  | zero =>
    intro st _ _
    refine ⟨rfl, ?_, rfl, ?_, ?_⟩ <;> simp [eraseLoop, attemptsFrom]
  | succ m ih =>
    intro st hE hD
    obtain ⟨st', heq, hidx, hregs, hfreq, h75, hsh⟩ :=
      eraseLoop_step g hv m st (by simpa using hE 0) (by simpa using hD 0)
    by_cases hdone : st.regs (st.idx + 2) &&& 0x2000 = 0
    · rw [heq, if_pos hdone]
      have hd0 : (fun k => st.regs (st.idx + 3 * k + 2) &&& 0x2000 == 0) 0 = true := by
        simp only [Nat.mul_zero, Nat.add_zero]
        simpa using hdone
      rw [attemptsFrom_succ, if_pos hd0]
      refine ⟨rfl, ?_, hregs, ?_, ?_⟩
      · show st'.idx = st.idx + 3 * 1
        omega
      · show List.count (Ev.ir 0x75) st'.log = List.count (Ev.ir 0x75) st.log + 1
        omega
      · show List.count (Ev.tapState Tap.shiftDR) st'.log =
          List.count (Ev.tapState Tap.shiftDR) st.log +
            1 * (if g.is_gw1n1 then 65 else 1)
        rw [hsh]
        ring
    · rw [heq, if_neg hdone]
      have hd0 : (fun k => st.regs (st.idx + 3 * k + 2) &&& 0x2000 == 0) 0 = false := by
        simp only [Nat.mul_zero, Nat.add_zero]
        simpa using hdone
      have hE' : ∀ k, st'.regs (st'.idx + 3 * k) &&& 0x80 = 0x80 := by
        intro k
        rw [hregs, hidx]
        have h := hE (k + 1)
        have harith : st.idx + 3 * (k + 1) = st.idx + 3 + 3 * k := by omega
        rw [harith] at h
        exact h
      have hD' : ∀ k, st'.regs (st'.idx + 3 * k + 1) &&& 0x80 = 0 := by
        intro k
        rw [hregs, hidx]
        have h := hD (k + 1)
        have harith : st.idx + 3 * (k + 1) + 1 = st.idx + 3 + 3 * k + 1 := by omega
        rw [harith] at h
        exact h
      obtain ⟨hres, hidx2, hregs2, h752, hsh2⟩ := ih st' hE' hD'
      have hshift : attemptsFrom
          (fun k => st'.regs (st'.idx + 3 * k + 2) &&& 0x2000 == 0) m 0 =
          attemptsFrom (fun k => st.regs (st.idx + 3 * k + 2) &&& 0x2000 == 0) m 1 := by
        rw [attemptsFrom_shift]
        apply attemptsFrom_congr
        intro k
        rw [hregs, hidx]
        have harith : st.idx + 3 + 3 * k + 2 = st.idx + 3 * (k + 1) + 2 := by omega
        rw [harith]
      rw [attemptsFrom_succ, if_neg (by simp [hd0])]
      simp only [Nat.zero_add]
      refine ⟨hres, ?_, by rw [hregs2, hregs], ?_, ?_⟩
      · rw [hidx2, hshift, hidx]
        omega
      · rw [h752, hshift, h75]
        omega
      · rw [hsh2, hshift, hsh]
        generalize (if g.is_gw1n1 then 65 else 1) = w
        ring

theorem count_verboseRead (g : GowinS) (e : Ev) (he : pollEvB e = false) (st : Hw) :
    List.count e (if g.verbose then (readStatusReg st).2 else st).log =
      List.count e st.log := by
  by_cases hv : g.verbose
  · rw [if_pos hv]
    exact (readStatusReg_logExt st).count_eq he
  · rw [if_neg hv]

theorem eraseLoop_counts (g : GowinS) : ∀ fuel (st : Hw), ∃ a, a ≤ fuel ∧
    List.count (Ev.ir 0x75) (eraseLoop g fuel st).2.log =
      List.count (Ev.ir 0x75) st.log + a ∧
    List.count (Ev.tapState Tap.shiftDR) (eraseLoop g fuel st).2.log =
      List.count (Ev.tapState Tap.shiftDR) st.log + a * (if g.is_gw1n1 then 65 else 1) := by
  intro fuel
  induction fuel with
  | zero =>
    intro st
    exact ⟨0, by omega, by simp [eraseLoop], by simp [eraseLoop]⟩
  | succ m ih =>
    intro st
    rw [eraseLoop_succ]
    set s0 := if g.verbose then (readStatusReg st).2 else st with hs0
    have h75s0 : List.count (Ev.ir 0x75) s0.log = List.count (Ev.ir 0x75) st.log := by
      rw [hs0]; exact count_verboseRead g _ (by decide) st
    have hshs0 : List.count (Ev.tapState Tap.shiftDR) s0.log =
        List.count (Ev.tapState Tap.shiftDR) st.log := by
      rw [hs0]; exact count_verboseRead g _ (by decide) st
    by_cases h1 : (enableCfg s0).1 = false
    · rw [if_pos h1]
      refine ⟨0, by omega, ?_, ?_⟩
      · show List.count _ (Ev.errFail :: (enableCfg s0).2.log) = _
        rw [count_cons_ne' _ _ _ (by simp),
          (enableCfg_logExt s0).count_eq (by decide), h75s0]
        omega
      · show List.count _ (Ev.errFail :: (enableCfg s0).2.log) = _
        rw [count_cons_ne' _ _ _ (by simp),
          (enableCfg_logExt s0).count_eq (by decide), hshs0]
        omega
    · rw [if_neg h1]
      have h75en : List.count (Ev.ir 0x75) (enableCfg s0).2.log =
          List.count (Ev.ir 0x75) st.log := by
        rw [(enableCfg_logExt s0).count_eq (by decide), h75s0]
      have hshen : List.count (Ev.tapState Tap.shiftDR) (enableCfg s0).2.log =
          List.count (Ev.tapState Tap.shiftDR) st.log := by
        rw [(enableCfg_logExt s0).count_eq (by decide), hshs0]
      have h75at : List.count (Ev.ir 0x75) (eraseAttempt g (enableCfg s0).2).log =
          List.count (Ev.ir 0x75) st.log + 1 := by
        rw [eraseAttempt_count75, h75en]
      have hshat : List.count (Ev.tapState Tap.shiftDR)
          (eraseAttempt g (enableCfg s0).2).log =
          List.count (Ev.tapState Tap.shiftDR) st.log + (if g.is_gw1n1 then 65 else 1) := by
        rw [eraseAttempt_countShift, hshen]
      have h75dis : List.count (Ev.ir 0x75)
          (disableCfg (eraseAttempt g (enableCfg s0).2)).2.log =
          List.count (Ev.ir 0x75) st.log + 1 := by
        rw [(disableCfg_logExt _).count_eq (by decide), h75at]
      have hshdis : List.count (Ev.tapState Tap.shiftDR)
          (disableCfg (eraseAttempt g (enableCfg s0).2)).2.log =
          List.count (Ev.tapState Tap.shiftDR) st.log + (if g.is_gw1n1 then 65 else 1) := by
        rw [(disableCfg_logExt _).count_eq (by decide), hshat]
      by_cases h2 : (disableCfg (eraseAttempt g (enableCfg s0).2)).1 = false
      · rw [if_pos h2]
        refine ⟨1, by omega, ?_, ?_⟩
        · show List.count _ (Ev.errFail ::
            (disableCfg (eraseAttempt g (enableCfg s0).2)).2.log) = _
          rw [count_cons_ne' _ _ _ (by simp), h75dis]
        · show List.count _ (Ev.errFail ::
            (disableCfg (eraseAttempt g (enableCfg s0).2)).2.log) = _
          rw [count_cons_ne' _ _ _ (by simp), hshdis]
          omega
      · rw [if_neg h2]
        set D : Hw := { (disableCfg (eraseAttempt g (enableCfg s0).2)).2 with
          log := Ev.sleepUs 500000 :: Ev.flush ::
            (disableCfg (eraseAttempt g (enableCfg s0).2)).2.log } with hD
        have h75D : List.count (Ev.ir 0x75) (readStatusReg D).2.log =
            List.count (Ev.ir 0x75) st.log + 1 := by
          rw [(readStatusReg_logExt D).count_eq (by decide), hD]
          show List.count _ (Ev.sleepUs 500000 :: Ev.flush ::
            (disableCfg (eraseAttempt g (enableCfg s0).2)).2.log) = _
          rw [count_cons_ne' _ _ _ (by simp), count_cons_ne' _ _ _ (by simp), h75dis]
        have hshD : List.count (Ev.tapState Tap.shiftDR) (readStatusReg D).2.log =
            List.count (Ev.tapState Tap.shiftDR) st.log +
              (if g.is_gw1n1 then 65 else 1) := by
          rw [(readStatusReg_logExt D).count_eq (by decide), hD]
          show List.count _ (Ev.sleepUs 500000 :: Ev.flush ::
            (disableCfg (eraseAttempt g (enableCfg s0).2)).2.log) = _
          rw [count_cons_ne' _ _ _ (by simp), count_cons_ne' _ _ _ (by simp), hshdis]
        by_cases h3 : (readStatusReg D).1 &&& 0x2000 = 0
        · rw [if_pos h3]
          exact ⟨1, by omega, h75D, by rw [hshD]; omega⟩
        · rw [if_neg h3]
          obtain ⟨a, ha, h75r, hshr⟩ := ih (readStatusReg D).2
          refine ⟨1 + a, by omega, ?_, ?_⟩
          · rw [h75r, h75D]
            omega
          · rw [hshr, hshD]
            generalize (if g.is_gw1n1 then 65 else 1) = w
            ring

theorem eraseFLASH_counts (g : GowinS) (st : Hw) : ∃ a, a ≤ 100 ∧
    List.count (Ev.ir 0x75) (eraseFLASH g st).2.log =
      List.count (Ev.ir 0x75) st.log + a ∧
    List.count (Ev.tapState Tap.shiftDR) (eraseFLASH g st).2.log =
      List.count (Ev.tapState Tap.shiftDR) st.log + a * (if g.is_gw1n1 then 65 else 1) := by
  simp only [eraseFLASH]
  set q := if (readStatusReg st).1 &&& 0x1000 ≠ 0 then eraseSRAM g (readStatusReg st).2
    else (true, (readStatusReg st).2) with hq
  have h75q : List.count (Ev.ir 0x75) q.2.log = List.count (Ev.ir 0x75) st.log := by
    rw [hq]
    by_cases hb : (readStatusReg st).1 &&& 0x1000 ≠ 0
    · rw [if_pos hb,
        (eraseSRAM_logExt g _).count_eq (by decide),
        (readStatusReg_logExt st).count_eq (by decide)]
    · rw [if_neg hb]
      exact (readStatusReg_logExt st).count_eq (by decide)
  have hshq : List.count (Ev.tapState Tap.shiftDR) q.2.log =
      List.count (Ev.tapState Tap.shiftDR) st.log := by
    rw [hq]
    by_cases hb : (readStatusReg st).1 &&& 0x1000 ≠ 0
    · rw [if_pos hb,
        (eraseSRAM_logExt g _).count_eq (by decide),
        (readStatusReg_logExt st).count_eq (by decide)]
    · rw [if_neg hb]
      exact (readStatusReg_logExt st).count_eq (by decide)
  by_cases h1 : q.1 = false
  · rw [if_pos h1]
    exact ⟨0, by omega, by rw [h75q]; omega, by rw [hshq]; omega⟩
  · rw [if_neg h1]
    obtain ⟨a, ha, h75L, hshL⟩ := eraseLoop_counts g 100 q.2
    by_cases h2 : (eraseLoop g 100 q.2).1 = false
    · rw [if_pos h2]
      exact ⟨a, ha, by rw [h75L, h75q], by rw [hshL, hshq]⟩
    · rw [if_neg h2]
      have h75r : List.count (Ev.ir 0x75)
          (readStatusReg (eraseLoop g 100 q.2).2).2.log =
          List.count (Ev.ir 0x75) st.log + a := by
        rw [(readStatusReg_logExt _).count_eq (by decide), h75L, h75q]
      have hshr : List.count (Ev.tapState Tap.shiftDR)
          (readStatusReg (eraseLoop g 100 q.2).2).2.log =
          List.count (Ev.tapState Tap.shiftDR) st.log +
            a * (if g.is_gw1n1 then 65 else 1) := by
        rw [(readStatusReg_logExt _).count_eq (by decide), hshL, hshq]
      by_cases h3 : (readStatusReg (eraseLoop g 100 q.2).2).1 &&& 0x2000 ≠ 0
      · rw [if_pos h3]
        refine ⟨a, ha, ?_, ?_⟩
        · show List.count _ (Ev.errFail ::
            (readStatusReg (eraseLoop g 100 q.2).2).2.log) = _
          rw [count_cons_ne' _ _ _ (by simp), h75r]
        · show List.count _ (Ev.errFail ::
            (readStatusReg (eraseLoop g 100 q.2).2).2.log) = _
          rw [count_cons_ne' _ _ _ (by simp), hshr]
      · rw [if_neg h3]
        exact ⟨a, ha, h75r, hshr⟩

/-- C3: `eraseFLASH` retries its erase sequence at most 100 times (the
universally-quantified count bound below), uses 65 SHIFT_DR/32-clock/idle
cycles per attempt exactly when the session's `is_gw1n1` flag is set — which
the constructor sets iff the hardware idcode is 0x0900281B — and 1 cycle
otherwise; on a protocol-conforming oracle (config-enable/disable polls
answer immediately, Gowin-VLD clear at entry) the loop performs exactly
`attemptsFrom` attempts, stopping at the first end-of-attempt status read
with done-final (1 << 13) cleared, and the call reports failure iff the
final status read after the loop still shows done-final set. -/
theorem eraseFLASH_spec (g : GowinS) (st : Hw)
    (hv : g.verbose = false)
    (h0 : st.regs st.idx &&& 0x1000 = 0)
    (hE : ∀ k, st.regs (st.idx + 1 + 3 * k) &&& 0x80 = 0x80)
    (hD : ∀ k, st.regs (st.idx + 2 + 3 * k) &&& 0x80 = 0) :
    ((eraseFLASH g st).1 = true ↔
      st.regs (st.idx + 1 + 3 * attemptsFrom
        (fun k => st.regs (st.idx + 3 + 3 * k) &&& 0x2000 == 0) 100 0) &&& 0x2000 = 0)
    ∧ attemptsFrom (fun k => st.regs (st.idx + 3 + 3 * k) &&& 0x2000 == 0) 100 0 ≤ 100
    ∧ List.count (Ev.ir 0x75) (eraseFLASH g st).2.log =
        List.count (Ev.ir 0x75) st.log +
          attemptsFrom (fun k => st.regs (st.idx + 3 + 3 * k) &&& 0x2000 == 0) 100 0
    ∧ List.count (Ev.tapState Tap.shiftDR) (eraseFLASH g st).2.log =
        List.count (Ev.tapState Tap.shiftDR) st.log +
          attemptsFrom (fun k => st.regs (st.idx + 3 + 3 * k) &&& 0x2000 == 0) 100 0 *
            (if g.is_gw1n1 then 65 else 1)
    ∧ (∀ i, i + 1 <
          attemptsFrom (fun k => st.regs (st.idx + 3 + 3 * k) &&& 0x2000 == 0) 100 0 →
        st.regs (st.idx + 3 + 3 * i) &&& 0x2000 ≠ 0)
    ∧ (attemptsFrom (fun k => st.regs (st.idx + 3 + 3 * k) &&& 0x2000 == 0) 100 0 < 100 →
        st.regs (st.idx + 3 + 3 *
          (attemptsFrom (fun k => st.regs (st.idx + 3 + 3 * k) &&& 0x2000 == 0) 100 0 - 1))
          &&& 0x2000 = 0)
    ∧ (∀ (g' : GowinS) (st' : Hw), ∃ b, b ≤ 100 ∧
        List.count (Ev.ir 0x75) (eraseFLASH g' st').2.log =
          List.count (Ev.ir 0x75) st'.log + b ∧
        List.count (Ev.tapState Tap.shiftDR) (eraseFLASH g' st').2.log =
          List.count (Ev.tapState Tap.shiftDR) st'.log +
            b * (if g'.is_gw1n1 then 65 else 1))
    ∧ (∀ (idc : Nat) (fk : FileKind) (ef po : Bool) (fsi : Nat) (mpo vb : Bool)
          (g2 : GowinS), mkGowin idc fk ef po fsi false mpo vb = Except.ok g2 →
        g2.is_gw1n1 = (idc == 0x0900281B)) := by
  have hE' : ∀ k, (afterRead st).regs ((afterRead st).idx + 3 * k) &&& 0x80 = 0x80 := by
    intro k
    exact hE k
  have hD' : ∀ k, (afterRead st).regs ((afterRead st).idx + 3 * k + 1) &&& 0x80 = 0 := by
    intro k
    show st.regs (st.idx + 1 + 3 * k + 1) &&& 0x80 = 0
    have harith : st.idx + 1 + 3 * k + 1 = st.idx + 2 + 3 * k := by omega
    rw [harith]
    exact hD k
  obtain ⟨hres, hidx, hregs, h75, hsh⟩ := eraseLoop_pattern g hv 100 (afterRead st) hE' hD'
  have hcong : attemptsFrom
      (fun k => (afterRead st).regs ((afterRead st).idx + 3 * k + 2) &&& 0x2000 == 0) 100 0 =
      attemptsFrom (fun k => st.regs (st.idx + 3 + 3 * k) &&& 0x2000 == 0) 100 0 := by
    apply attemptsFrom_congr
    intro k
    show (st.regs (st.idx + 1 + 3 * k + 2) &&& 0x2000 == 0) = _
    have harith : st.idx + 1 + 3 * k + 2 = st.idx + 3 + 3 * k := by omega
    rw [harith]
  rw [hcong] at hidx h75 hsh
  set a := attemptsFrom (fun k => st.regs (st.idx + 3 + 3 * k) &&& 0x2000 == 0) 100 0
    with ha
  have hfirst := attemptsFrom_first
    (fun k => st.regs (st.idx + 3 + 3 * k) &&& 0x2000 == 0) 100 0
  have heF : eraseFLASH g st =
      (let p1 := eraseLoop g 100 (afterRead st)
       if p1.1 = false then (false, p1.2)
       else
         let p2 := readStatusReg p1.2
         if p2.1 &&& 0x2000 ≠ 0 then (false, errFailEv p2.2) else (true, p2.2)) := by
    show (let p0 := readStatusReg st
          let q := if p0.1 &&& 0x1000 ≠ 0 then eraseSRAM g p0.2 else (true, p0.2)
          if q.1 = false then (false, q.2)
          else
            let p1 := eraseLoop g 100 q.2
            if p1.1 = false then (false, p1.2)
            else
              let p2 := readStatusReg p1.2
              if p2.1 &&& 0x2000 ≠ 0 then (false, errFailEv p2.2) else (true, p2.2)) = _
    have hc : ¬ ((readStatusReg st).1 &&& 0x1000 ≠ 0) := by
      rw [show (readStatusReg st).1 = st.regs st.idx from rfl, h0]
      simp
    simp only [hc, if_false]
    rw [if_neg (show ¬ ((true, (readStatusReg st).2).1 = false) by simp)]
    rfl
  rw [heF]
  simp only [hres, Bool.true_eq_false, if_false]
  have hval : (readStatusReg (eraseLoop g 100 (afterRead st)).2).1 =
      st.regs (st.idx + 1 + 3 * a) := by
    show (eraseLoop g 100 (afterRead st)).2.regs
      (eraseLoop g 100 (afterRead st)).2.idx = _
    rw [hregs, hidx]
    rfl
  refine ⟨?_, attemptsFrom_le _ 100 0, ?_, ?_, ?_, ?_, ?_, ?_⟩
  · by_cases hbit : st.regs (st.idx + 1 + 3 * a) &&& 0x2000 = 0
    · rw [if_neg (by rw [hval]; simp [hbit])]
      simp [hbit]
    · rw [if_pos (by rw [hval]; simpa using hbit)]
      simp [hbit]
  · by_cases hbit : (readStatusReg (eraseLoop g 100 (afterRead st)).2).1 &&& 0x2000 ≠ 0
    · rw [if_pos hbit]
      show List.count _ (Ev.errFail ::
        (readStatusReg (eraseLoop g 100 (afterRead st)).2).2.log) = _
      rw [count_cons_ne' _ _ _ (by simp), (readStatusReg_logExt _).count_eq (by decide),
        h75, count75_afterRead]
    · rw [if_neg hbit]
      rw [(readStatusReg_logExt _).count_eq (by decide), h75, count75_afterRead]
  · by_cases hbit : (readStatusReg (eraseLoop g 100 (afterRead st)).2).1 &&& 0x2000 ≠ 0
    · rw [if_pos hbit]
      show List.count _ (Ev.errFail ::
        (readStatusReg (eraseLoop g 100 (afterRead st)).2).2.log) = _
      rw [count_cons_ne' _ _ _ (by simp), (readStatusReg_logExt _).count_eq (by decide),
        hsh, countShift_afterRead]
    · rw [if_neg hbit]
      rw [(readStatusReg_logExt _).count_eq (by decide), hsh, countShift_afterRead]
  · intro i hi
    have h2 := hfirst.1 i hi
    simp only [Nat.zero_add] at h2
    simpa using h2
  · intro hlt
    have h2 := hfirst.2 hlt
    simp only [Nat.zero_add] at h2
    simpa using h2
  · intro g' st'
    exact eraseFLASH_counts g' st'
  · intro idc fk ef po fsi mpo vb g2 h
    unfold mkGowin at h
    repeat' split at h
    all_goals simp_all [quirkSession]
    all_goals rw [← h]

/-- Witness for C3: a concrete conforming oracle (enable-poll answers 0x80 at
indices ≡ 1 mod 3, disable-poll 0 elsewhere) satisfies every hypothesis and
the erase reports success. -/
theorem eraseFLASH_spec_witness :
    gFix.verbose = false ∧
    ((Hw.mk (fun n => if n % 3 = 1 then 0x80 else 0) 0 2500000 []).regs 0
      &&& 0x1000 = 0) ∧
    (∀ k, (Hw.mk (fun n => if n % 3 = 1 then 0x80 else 0) 0 2500000 []).regs
      (0 + 1 + 3 * k) &&& 0x80 = 0x80) ∧
    (∀ k, (Hw.mk (fun n => if n % 3 = 1 then 0x80 else 0) 0 2500000 []).regs
      (0 + 2 + 3 * k) &&& 0x80 = 0) ∧
    (eraseFLASH gFix
      (Hw.mk (fun n => if n % 3 = 1 then 0x80 else 0) 0 2500000 [])).1 = true := by
  have hE0 : ∀ k, (Hw.mk (fun n => if n % 3 = 1 then 0x80 else 0) 0 2500000 []).regs
      (0 + 1 + 3 * k) &&& 0x80 = 0x80 := by
    intro k
    show (if (0 + 1 + 3 * k) % 3 = 1 then 0x80 else 0) &&& 0x80 = 0x80
    rw [if_pos (show (0 + 1 + 3 * k) % 3 = 1 by omega)]
    rfl
  have hD0 : ∀ k, (Hw.mk (fun n => if n % 3 = 1 then 0x80 else 0) 0 2500000 []).regs
      (0 + 2 + 3 * k) &&& 0x80 = 0 := by
    intro k
    show (if (0 + 2 + 3 * k) % 3 = 1 then 0x80 else 0) &&& 0x80 = 0
    rw [if_neg (show ¬ (0 + 2 + 3 * k) % 3 = 1 by omega)]
    rfl
  refine ⟨rfl, by decide, hE0, hD0, ?_⟩
  exact ((eraseFLASH_spec gFix
    (Hw.mk (fun n => if n % 3 = 1 then 0x80 else 0) 0 2500000 [])
    rfl (by decide) hE0 hD0).1).mpr (by decide)

/-! ## `spi_wait` support lemmas -/

/-- Or-then-and absorption: `(a ||| b) &&& b = b`. -/
theorem or_and_absorb (a b : Nat) : (a ||| b) &&& b = b := by
  apply Nat.eq_of_testBit_eq
  intro i
  simp only [Nat.testBit_and, Nat.testBit_or]
  cases ha : a.testBit i <;> cases hb : b.testBit i <;> rfl

/-- The map `x ↦ (x &&& y) ||| z` is idempotent composed with itself. -/
theorem and_or_fix (x y z : Nat) :
    (((x &&& y) ||| z) &&& y) ||| z = (x &&& y) ||| z := by
  apply Nat.eq_of_testBit_eq
  intro i
  simp only [Nat.testBit_and, Nat.testBit_or]
  cases hx : x.testBit i <;> cases hy : y.testBit i <;> cases hz : z.testBit i <;> rfl

/-- Bits masked off by `not8 s` never survive an and with `s` (for `s < 256`). -/
theorem and_not8_or_and (x z s : Nat) (hs : s < 256) :
    ((x &&& not8 s) ||| z) &&& s = z &&& s := by
  apply Nat.eq_of_testBit_eq
  intro i
  simp only [Nat.testBit_and, Nat.testBit_or, not8, Nat.testBit_xor,
    Nat.mod_eq_of_lt hs]
  by_cases h8 : i < 8
  · have h255 : Nat.testBit 255 i = true := by
      interval_cases i <;> rfl
    rw [h255]
    cases hx : x.testBit i <;> cases hz : z.testBit i <;> cases hsb : s.testBit i <;> rfl
  · have h2i : (256 : Nat) ≤ 2 ^ i := by
      have h28 : (2 : Nat) ^ 8 ≤ 2 ^ i := Nat.pow_le_pow_right (by norm_num) (by omega)
      simpa using h28
    have hsb : s.testBit i = false :=
      Nat.testBit_lt_two_pow (lt_of_lt_of_le hs h2i)
    have h255 : Nat.testBit 255 i = false :=
      Nat.testBit_lt_two_pow (lt_of_lt_of_le (by norm_num) h2i)
    rw [h255, hsb]
    cases hx : x.testBit i <;> cases hz : z.testBit i <;> rfl

/-- One unfolding of `spiReadByte`. -/
theorem spiReadByte_succ (g : GowinS) (n t tmp : Nat) (st : Hw) :
    spiReadByte g (n + 1) t tmp st =
      spiReadByte g n ((t &&& not8 g.spi_sck) ||| g.spi_sck)
        (if st.regs st.idx % 256 &&& g.spi_do ≠ 0 then tmp ||| 2 ^ n else tmp)
        (Hw.mk st.regs (st.idx + 1) st.freq
          (Ev.flush :: Ev.clk 6 :: Ev.drR 8 (st.regs st.idx % 256) ::
            Ev.drW [(t &&& not8 g.spi_sck) ||| g.spi_sck] 8 :: Ev.clk 6 ::
            Ev.drW [t &&& not8 g.spi_sck] 8 :: st.log)) := rfl

/-- `spiReadByte` leaves the oracle unchanged and consumes one read per bit. -/
theorem spiReadByte_st (g : GowinS) :
    ∀ n t tmp st, (spiReadByte g n t tmp st).2.2.regs = st.regs ∧
      (spiReadByte g n t tmp st).2.2.idx = st.idx + n := by
  intro n
  induction n with
  | zero => intro t tmp st; exact ⟨rfl, rfl⟩
  | succ n ih =>
    intro t tmp st
    rw [spiReadByte_succ]
    refine ⟨(ih _ _ _).1, ?_⟩
    rw [(ih _ _ _).2]
    show st.idx + 1 + n = st.idx + (n + 1)
    omega

/-- After at least one bit, the driven vector has the clock bit forced high
(the `t` returned by `spiReadByte`). -/
theorem spiReadByte_t (g : GowinS) :
    ∀ n t tmp st, (spiReadByte g (n + 1) t tmp st).1 =
      (t &&& not8 g.spi_sck) ||| g.spi_sck := by
  intro n
  induction n with
  | zero => intro t tmp st; rfl
  | succ n ih =>
    intro t tmp st
    rw [spiReadByte_succ, ih]
    exact and_or_fix t (not8 g.spi_sck) g.spi_sck

/-- The byte assembled by `spiReadByte` is `legacyBits` of the oracle. -/
theorem spiReadByte_tmp (g : GowinS) :
    ∀ n t tmp st, (spiReadByte g n t tmp st).2.1 =
      tmp ||| legacyBits g st.regs st.idx n := by
  intro n
  induction n with
  | zero =>
    intro t tmp st
    show tmp = tmp ||| 0
    simp
  | succ n ih =>
    intro t tmp st
    rw [spiReadByte_succ, ih]
    show _ = tmp ||| ((if st.regs st.idx % 256 &&& g.spi_do ≠ 0 then 2 ^ n else 0) |||
      legacyBits g st.regs (st.idx + 1) n)
    by_cases hc : st.regs st.idx % 256 &&& g.spi_do ≠ 0
    · rw [if_pos hc, if_pos hc, Nat.or_assoc]
    · rw [if_neg hc, if_neg hc, Nat.zero_or]

/-- One unfolding of the legacy poll loop. -/
theorem spiWaitLoopL_succ' (g : GowinS) (mask cond timeout fuel t count : Nat)
    (st : Hw) :
    spiWaitLoopL g mask cond timeout (fuel + 1) t count st =
      if count + 1 = timeout then
        (count + 1, (spiReadByte g 8 t 0 st).1, (spiReadByte g 8 t 0 st).2.1,
          (spiReadByte g 8 t 0 st).2.2)
      else if (spiReadByte g 8 t 0 st).2.1 &&& mask ≠ cond then
        spiWaitLoopL g mask cond timeout fuel (spiReadByte g 8 t 0 st).1 (count + 1)
          (spiReadByte g 8 t 0 st).2.2
      else (count + 1, (spiReadByte g 8 t 0 st).1, (spiReadByte g 8 t 0 st).2.1,
        (spiReadByte g 8 t 0 st).2.2) := rfl

/-- If every status byte the oracle can deliver fails the condition, the
legacy poll loop runs its counter all the way to `timeout`. -/
theorem spiWaitLoopL_timeout (g : GowinS) (mask cond timeout : Nat) :
    ∀ fuel count t st, count + fuel = timeout →
      (∀ k, k < fuel → legacyBits g st.regs (st.idx + 8 * k) 8 &&& mask ≠ cond) →
      (spiWaitLoopL g mask cond timeout fuel t count st).1 = timeout := by
  intro fuel
  induction fuel with
  | zero =>
    intro count t st hsum hfail
    show count = timeout
    omega
  | succ fuel ih =>
    intro count t st hsum hfail
    rw [spiWaitLoopL_succ']
    by_cases ht2 : count + 1 = timeout
    · rw [if_pos ht2]
      exact ht2
    · rw [if_neg ht2]
      have hc : (spiReadByte g 8 t 0 st).2.1 &&& mask ≠ cond := by
        rw [spiReadByte_tmp, Nat.zero_or]
        exact hfail 0 (by omega)
      rw [if_pos hc]
      apply ih
      · omega
      · intro k hk
        rw [(spiReadByte_st g 8 t 0 st).1, (spiReadByte_st g 8 t 0 st).2]
        have harith : st.idx + 8 + 8 * k = st.idx + 8 * (k + 1) := by omega
        rw [harith]
        exact hfail (k + 1) (by omega)

/-- One unfolding of the GW2A poll loop. -/
theorem spiWaitLoopA_succ' (g : GowinS) (mask cond timeout fuel count : Nat)
    (st : Hw) :
    spiWaitLoopA g mask cond timeout (fuel + 1) count st =
      if count + 1 = timeout then
        (count + 1, assistByte (st.regs st.idx),
          Hw.mk st.regs (st.idx + 1) st.freq
            (Ev.drR 24 (st.regs st.idx) :: Ev.tapState Tap.exit2DR :: Ev.clk 5 ::
              Ev.ir 0x16 :: st.log))
      else if assistByte (st.regs st.idx) &&& mask ≠ cond then
        spiWaitLoopA g mask cond timeout fuel (count + 1)
          (Hw.mk st.regs (st.idx + 1) st.freq
            (Ev.drR 24 (st.regs st.idx) :: Ev.tapState Tap.exit2DR :: Ev.clk 5 ::
              Ev.ir 0x16 :: st.log))
      else (count + 1, assistByte (st.regs st.idx),
        Hw.mk st.regs (st.idx + 1) st.freq
          (Ev.drR 24 (st.regs st.idx) :: Ev.tapState Tap.exit2DR :: Ev.clk 5 ::
            Ev.ir 0x16 :: st.log)) := rfl

/-- If every rebuilt response byte fails the condition, the GW2A poll loop
runs its counter all the way to `timeout`. -/
theorem spiWaitLoopA_timeout (g : GowinS) (mask cond timeout : Nat) :
    ∀ fuel count st, count + fuel = timeout →
      (∀ k, k < fuel → assistByte (st.regs (st.idx + k)) &&& mask ≠ cond) →
      (spiWaitLoopA g mask cond timeout fuel count st).1 = timeout := by
  intro fuel
  induction fuel with
  | zero =>
    intro count st hsum hfail
    show count = timeout
    omega
  | succ fuel ih =>
    intro count st hsum hfail
    rw [spiWaitLoopA_succ']
    by_cases ht2 : count + 1 = timeout
    · rw [if_pos ht2]
      exact ht2
    · rw [if_neg ht2]
      have hc : assistByte (st.regs st.idx) &&& mask ≠ cond := hfail 0 (by omega)
      rw [if_pos hc]
      apply ih
      · omega
      · intro k hk
        show assistByte (st.regs (st.idx + 1 + k)) &&& mask ≠ cond
        have harith : st.idx + 1 + k = st.idx + (k + 1) := by omega
        rw [harith]
        exact hfail (k + 1) (by omega)

/-- The GW2A poll loop never drives a boundary-scan vector: the most recent
8-bit DR write in the log is whatever it was before the loop. -/
theorem spiWaitLoopA_lastVec (g : GowinS) (mask cond timeout : Nat) :
    ∀ fuel count st,
      lastBscanVec (spiWaitLoopA g mask cond timeout fuel count st).2.2.log =
        lastBscanVec st.log := by
  intro fuel
  induction fuel with
  | zero => intro count st; rfl
  | succ fuel ih =>
    intro count st
    rw [spiWaitLoopA_succ']
    by_cases ht2 : count + 1 = timeout
    · rw [if_pos ht2]
      rfl
    · rw [if_neg ht2]
      by_cases hc : assistByte (st.regs st.idx) &&& mask ≠ cond
      · rw [if_pos hc, ih]
        rfl
      · rw [if_neg hc]
        rfl

/-- `spi_wait` on a non-GW2A session, folded to a single branch on the
counter. -/
theorem spi_wait_eqL (g : GowinS) (cmd mask cond timeout : Nat) (st : Hw)
    (hg : g.is_gw2a = false) :
    spi_wait g cmd mask cond timeout st =
      if (spiWaitLegacyQ g cmd mask cond timeout st).1 = timeout then
        (-62, { spiWaitLegacyEnd g cmd mask cond timeout st with
                log := Ev.errTimeout ::
                  (spiWaitLegacyEnd g cmd mask cond timeout st).log })
      else (0, spiWaitLegacyEnd g cmd mask cond timeout st) := by
  unfold spi_wait
  rw [hg]
  rfl

/-- `spi_wait` on a GW2A session, folded to a single branch on the counter. -/
theorem spi_wait_eqA (g : GowinS) (cmd mask cond timeout : Nat) (st : Hw)
    (hg : g.is_gw2a = true) :
    spi_wait g cmd mask cond timeout st =
      if (spiWaitLoopA g mask cond timeout timeout 0 st).1 = timeout then
        (-62, { (spiWaitLoopA g mask cond timeout timeout 0 st).2.2 with
                log := Ev.errTimeout ::
                  (spiWaitLoopA g mask cond timeout timeout 0 st).2.2.log })
      else (0, (spiWaitLoopA g mask cond timeout timeout 0 st).2.2) := by
  unfold spi_wait
  rw [hg]
  rfl

/-- The command-send phase only writes vectors: oracle and index unchanged. -/
theorem spiWaitCmdBits_state (g : GowinS) (cmd : Nat) :
    ∀ n st, (spiWaitCmdBits g cmd n st).regs = st.regs ∧
      (spiWaitCmdBits g cmd n st).idx = st.idx := by
  intro n
  induction n with
  | zero => intro st; exact ⟨rfl, rfl⟩
  | succ n ih =>
    intro st
    exact ih _

/-- Shape of the legacy `spi_wait` path: return code is 0 or -62, an
all-failing oracle forces -62, and the last driven vector is `tf`. -/
theorem spi_wait_legacy_shape (g : GowinS) (cmd mask cond timeout : Nat) (st : Hw)
    (hg : g.is_gw2a = false) :
    ((spi_wait g cmd mask cond timeout st).1 = 0 ∨
      (spi_wait g cmd mask cond timeout st).1 = -62) ∧
    ((∀ k, k < timeout → legacyBits g st.regs (st.idx + 8 * k) 8 &&& mask ≠ cond) →
      (spi_wait g cmd mask cond timeout st).1 = -62) ∧
    lastBscanVec (spi_wait g cmd mask cond timeout st).2.log =
      some (spiWaitLegacyTf g cmd mask cond timeout st) := by
  rw [spi_wait_eqL g cmd mask cond timeout st hg]
  refine ⟨?_, ?_, ?_⟩
  · by_cases hq : (spiWaitLegacyQ g cmd mask cond timeout st).1 = timeout
    · rw [if_pos hq]
      right
      rfl
    · rw [if_neg hq]
      left
      rfl
  · intro hfail
    have hq : (spiWaitLegacyQ g cmd mask cond timeout st).1 = timeout := by
      unfold spiWaitLegacyQ
      apply spiWaitLoopL_timeout
      · omega
      · intro k hk
        rw [(spiWaitCmdBits_state g cmd 8 _).1, (spiWaitCmdBits_state g cmd 8 _).2]
        exact hfail k hk
    rw [if_pos hq]
  · by_cases hq : (spiWaitLegacyQ g cmd mask cond timeout st).1 = timeout
    · rw [if_pos hq]
      rfl
    · rw [if_neg hq]
      rfl

/-- Shape of the GW2A `spi_wait` path: return code is 0 or -62, an
all-failing oracle forces -62, and no boundary-scan vector is driven. -/
theorem spi_wait_gw2a_shape (g : GowinS) (cmd mask cond timeout : Nat) (st : Hw)
    (hg : g.is_gw2a = true) :
    ((spi_wait g cmd mask cond timeout st).1 = 0 ∨
      (spi_wait g cmd mask cond timeout st).1 = -62) ∧
    ((∀ k, k < timeout → assistByte (st.regs (st.idx + k)) &&& mask ≠ cond) →
      (spi_wait g cmd mask cond timeout st).1 = -62) ∧
    lastBscanVec (spi_wait g cmd mask cond timeout st).2.log =
      lastBscanVec st.log := by
  rw [spi_wait_eqA g cmd mask cond timeout st hg]
  refine ⟨?_, ?_, ?_⟩
  · by_cases hq : (spiWaitLoopA g mask cond timeout timeout 0 st).1 = timeout
    · rw [if_pos hq]
      right
      rfl
    · rw [if_neg hq]
      left
      rfl
  · intro hfail
    have hq : (spiWaitLoopA g mask cond timeout timeout 0 st).1 = timeout :=
      spiWaitLoopA_timeout g mask cond timeout timeout 0 st (by omega) hfail
    rw [if_pos hq]
  · by_cases hq : (spiWaitLoopA g mask cond timeout timeout 0 st).1 = timeout
    · rw [if_pos hq]
      show lastBscanVec
        ((spiWaitLoopA g mask cond timeout timeout 0 st).2.2.log) = _
      exact spiWaitLoopA_lastVec g mask cond timeout timeout 0 st
    · rw [if_neg hq]
      exact spiWaitLoopA_lastVec g mask cond timeout timeout 0 st

/-- C8 counterexample: on a GW2A session `spi_wait` returns success without
ever driving a boundary-scan vector — the last driven vector is still the
one from before the call (here with the chip-select bit low, i.e. CS
asserted), so the bus is not left with chip-select deasserted. -/
theorem spi_wait_gw2a_bus_cex :
    (spi_wait gGw2a 5 0 0 7 (Hw.mk (fun _ => 0) 0 2500000 [Ev.drW [0] 8])).1 = 0 ∧
    lastBscanVec (spi_wait gGw2a 5 0 0 7
      (Hw.mk (fun _ => 0) 0 2500000 [Ev.drW [0] 8])).2.log = some 0 ∧
    0 &&& gGw2a.spi_cs ≠ gGw2a.spi_cs :=
  ⟨rfl, rfl, by decide⟩

/-- C8: `spi_wait` returns either 0 (success) or the distinct timeout code
-ETIME = -62; when every polled response fails `(tmp & mask) == cond` within
the budget it returns -62 (on both the legacy and the GW2A path); on the
legacy path the function always leaves the bus with the chip-select bit
driven high (deasserted) and the clock bit low — but on the GW2A path it
drives no boundary-scan vector at all, leaving the bus as it was. -/
theorem spi_wait_amended (g : GowinS) (cmd mask cond timeout : Nat) (st : Hw)
    (hp : PinsStd g) (_ht : 1 ≤ timeout) :
    ((spi_wait g cmd mask cond timeout st).1 = 0 ∨
      (spi_wait g cmd mask cond timeout st).1 = -62) ∧
    (g.is_gw2a = true →
      (∀ k, k < timeout → assistByte (st.regs (st.idx + k)) &&& mask ≠ cond) →
      (spi_wait g cmd mask cond timeout st).1 = -62) ∧
    (g.is_gw2a = false →
      (∀ k, k < timeout → legacyBits g st.regs (st.idx + 8 * k) 8 &&& mask ≠ cond) →
      (spi_wait g cmd mask cond timeout st).1 = -62) ∧
    (g.is_gw2a = true →
      lastBscanVec (spi_wait g cmd mask cond timeout st).2.log =
        lastBscanVec st.log) ∧
    (g.is_gw2a = false → ∃ tf,
      lastBscanVec (spi_wait g cmd mask cond timeout st).2.log = some tf ∧
      tf &&& g.spi_cs = g.spi_cs ∧ tf &&& g.spi_sck = 0) := by
  by_cases hg : g.is_gw2a = true
  · obtain ⟨h1, h2, h3⟩ := spi_wait_gw2a_shape g cmd mask cond timeout st hg
    refine ⟨h1, fun _ => h2, ?_, fun _ => h3, ?_⟩
    · intro hf
      rw [hg] at hf
      exact absurd hf (by decide)
    · intro hf
      rw [hg] at hf
      exact absurd hf (by decide)
  · simp only [Bool.not_eq_true] at hg
    obtain ⟨h1, h2, h3⟩ := spi_wait_legacy_shape g cmd mask cond timeout st hg
    refine ⟨h1, ?_, fun _ => h2, ?_, ?_⟩
    · intro htr
      rw [hg] at htr
      exact absurd htr (by decide)
    · intro htr
      rw [hg] at htr
      exact absurd htr (by decide)
    · intro _
      refine ⟨spiWaitLegacyTf g cmd mask cond timeout st, h3, ?_, ?_⟩
      · show (((spiWaitLegacyQ g cmd mask cond timeout st).2.1 &&& not8 g.spi_sck) |||
          g.spi_cs) &&& g.spi_cs = g.spi_cs
        exact or_and_absorb _ _
      · show (((spiWaitLegacyQ g cmd mask cond timeout st).2.1 &&& not8 g.spi_sck) |||
          g.spi_cs) &&& g.spi_sck = 0
        rcases hp with ⟨hsck, hcs, h3', h4', h5'⟩ | ⟨hsck, hcs, h3', h4', h5'⟩
        · rw [hsck, hcs, and_not8_or_and _ _ _ (by norm_num)]
          decide
        · rw [hsck, hcs, and_not8_or_and _ _ _ (by norm_num)]
          decide

/-- Witness for C8: a plain (non-GW2A) session with the all-zero oracle and
`cond = 1` that can never match: the theorem applies, the call times out with
-62, and the final driven vector has CS high and the clock low. -/
theorem spi_wait_amended_witness :
    PinsStd gFix ∧ 1 ≤ 3 ∧
    ((spi_wait gFix 5 255 1 3 stFix).1 = 0 ∨
      (spi_wait gFix 5 255 1 3 stFix).1 = -62) ∧
    (spi_wait gFix 5 255 1 3 stFix).1 = -62 ∧
    (∃ tf, lastBscanVec (spi_wait gFix 5 255 1 3 stFix).2.log = some tf ∧
      tf &&& gFix.spi_cs = gFix.spi_cs ∧ tf &&& gFix.spi_sck = 0) := by
  have hp : PinsStd gFix := Or.inl ⟨rfl, rfl, rfl, rfl, rfl⟩
  have h := spi_wait_amended gFix 5 255 1 3 stFix hp (by omega)
  exact ⟨hp, by omega, h.1, h.2.2.1 rfl (by decide), h.2.2.2.2 rfl⟩
